import Mathlib

/-!
Verification development for the jetbrains-proxy-mcp-server repository.

The Python sources are shallowly embedded as Lean definitions:
  * paths.py            -> namespace Paths        (strings are modelled as List Char)
  * utils.py get(...)   -> namespace Retry        (time is modelled with Rat, a mocked
                                                   monotonic clock starting at 0)
  * JetbrainsMCPServerProxy.py
      - the tool allow-list filter of _do_list_tools  -> namespace Tools
      - the start/stop lifecycle state machine        -> namespace Lifecycle
      - the _restart_on_error attempt hook            -> namespace Hook
      - the response rewriting of the per-tool
        call_tool handlers                            -> namespace Handlers
-/

namespace Paths

/-- Model of the character class [a-z] used by the regexes in paths.py. -/
def isLowerAZ (c : Char) : Bool := 'a' ≤ c && c ≤ 'z'

/-- Model of the character class [A-Za-z] used by the regex in parse_from_windows. -/
def isAlphaAZ (c : Char) : Bool := ('a' ≤ c && c ≤ 'z') || ('A' ≤ c && c ≤ 'Z')

/-- Python str.strip(): drop whitespace from both ends. -/
def stripChars (l : List Char) : List Char :=
  ((l.dropWhile Char.isWhitespace).reverse.dropWhile Char.isWhitespace).reverse

/-- Python `.replace chr(92) with slash` from normalize_path: backslashes become slashes. -/
def slashify (l : List Char) : List Char :=
  l.map (fun c => if c = '\\' then '/' else c)

/-- The `while // in p: replace` loop of normalize_path: its result is the
input with every run of slashes collapsed to a single slash, computed here by
structural recursion (dropping a slash whenever the collapsed rest already
starts with one). -/
def collapseSlashes : List Char → List Char
  | [] => []
  | a :: rest =>
    let r := collapseSlashes rest
    if a = '/' ∧ r.head? = some '/' then r else a :: r

/-- paths.normalize_path: strip, backslash to slash, collapse duplicate slashes.
Empty input is returned as is. -/
def normalize_path (p : List Char) : List Char :=
  if p = [] then p else collapseSlashes (slashify (stripChars p))

/-- The regex test of parse_from_wsl and of detect_path_type over a
normalized path: matches iff the path starts with slash-mnt-slash, then one or
more lowercase letters, then a slash. -/
def wslRegexMatch (p : List Char) : Bool :=
  p.take 5 = "/mnt/".toList &&
    (let rest := p.drop 5
     let ds := rest.takeWhile isLowerAZ
     !ds.isEmpty && (rest.drop ds.length).head? = some '/')

/-- The regex test of parse_from_windows_git_bash: slash, one or more lowercase
letters, slash. -/
def gitBashRegexMatch (p : List Char) : Bool :=
  p.take 1 = ['/'] &&
    (let rest := p.drop 1
     let ds := rest.takeWhile isLowerAZ
     !ds.isEmpty && (rest.drop ds.length).head? = some '/')

/-- The regex test of parse_from_windows and of detect_path_type: one or more
letters of either case followed by a colon, at the start. -/
def windowsRegexMatch (p : List Char) : Bool :=
  let ds := p.takeWhile isAlphaAZ
  !ds.isEmpty && (p.drop ds.length).head? = some ':'

/-- paths.parse_from_wsl. On a regex match the drive is the lowercase-letter
segment after /mnt/ and the tail is the slash plus the remainder (the split
with maxsplit 3 of the Python code). -/
def parse_from_wsl (p : List Char) : Option (List Char) × List Char :=
  if wslRegexMatch p then
    let rest := p.drop 5
    let ds := rest.takeWhile isLowerAZ
    (some ds, rest.drop ds.length)
  else (none, p)

/-- paths.parse_from_windows_git_bash. On a regex match the drive is the first
lowercase-letter segment and the tail is the slash plus the remainder. -/
def parse_from_windows_git_bash (p : List Char) : Option (List Char) × List Char :=
  if gitBashRegexMatch p then
    let rest := p.drop 1
    let ds := rest.takeWhile isLowerAZ
    (some ds, rest.drop ds.length)
  else (none, p)

/-- paths.parse_from_windows. parts is the split with maxsplit 1 on slash;
the drive is parts 0 minus its final character, the tail is a slash plus
parts 1 (or just a slash when there is no slash at all). -/
def parse_from_windows (p : List Char) : Option (List Char) × List Char :=
  if windowsRegexMatch p then
    let seg := p.takeWhile (fun c => c ≠ '/')
    let drive := seg.dropLast
    let rest := p.drop seg.length
    let remainder := if rest = [] then [] else rest.tail
    (some drive, '/' :: remainder)
  else (none, p)

/-- paths.detect_path_type: normalize, then wsl regex, then windows regex. -/
def detect_path_type (p : List Char) : Option String :=
  let q := normalize_path p
  if q = [] then none
  else if wslRegexMatch q then some "wsl"
  else if windowsRegexMatch q then some "windows"
  else none

/-- paths.detect_drive_and_path: dispatch on the declared from type. -/
def detect_drive_and_path (p : List Char) (from_type : String) :
    Option (List Char) × List Char :=
  if from_type = "wsl" then parse_from_wsl p
  else if from_type = "windows_git_bash" then parse_from_windows_git_bash p
  else if from_type = "windows" then parse_from_windows p
  else (none, p)

/-- Python str.lower restricted to ASCII letters, as used on drive letters. -/
def lowerChar (c : Char) : Char :=
  if 'A' ≤ c ∧ c ≤ 'Z' then Char.ofNat (c.toNat + 32) else c

/-- Lowercase an entire drive-letter run (Python drive.lower()). -/
def lowerRun (d : List Char) : List Char := d.map lowerChar

/-- Python truthiness of the optional drive string: None and the empty string
are falsy. -/
def driveTruthy : Option (List Char) → Bool
  | some (_ :: _) => true
  | _ => false

/-- paths.build_converted_path: rebuild the path in the target style.
The original (unnormalized) input is returned when the conversion to the
windows style is impossible or the target style is unknown. -/
def build_converted_path (drive : Option (List Char)) (path : List Char)
    (to_type : String) (original : List Char) : List Char :=
  if to_type = "wsl" then
    if driveTruthy drive then "/mnt/".toList ++ lowerRun (drive.getD []) ++ path
    else path
  else if to_type = "windows_git_bash" then
    if driveTruthy drive then '/' :: (lowerRun (drive.getD []) ++ path)
    else path
  else if to_type = "windows" then
    if driveTruthy drive then (drive.getD []) ++ ':' :: path
    else if path.head? ≠ some '/' then path
    else original
  else original

/-- The list of known path styles of convert_path. -/
def knownTypes : List String := ["wsl", "windows_git_bash", "windows"]

/-- The tail of paths.convert_path after the short circuits and the detection
override: bail out on an unknown from type, otherwise normalize, parse and
rebuild. -/
def convertCore (p : List Char) (from_type to_type : String) : List Char :=
  if from_type ∉ knownTypes then p
  else
    let q := normalize_path p
    let dp := detect_drive_and_path q from_type
    build_converted_path dp.1 dp.2 to_type p

/-- paths.convert_path: short circuits for empty path, identical styles and
unknown target style; detection override of the declared from type; then the
normalize-parse-rebuild pipeline. -/
def convert_path (p : List Char) (from_type to_type : String) : List Char :=
  if p = [] ∨ from_type = to_type ∨ to_type ∉ knownTypes then p
  else
    match detect_path_type p with
    | some d =>
      if d = to_type then p
      else
        -- the code overwrites from_type with d when they differ
        convertCore p (if d ≠ from_type then d else from_type) to_type
    | none => convertCore p from_type to_type

/-- A non-empty run of lowercase ASCII letters. -/
def lettersLower (d : List Char) : Prop := d ≠ [] ∧ ∀ c ∈ d, isLowerAZ c = true

/-- A non-empty run of ASCII letters of either case. -/
def lettersAZ (d : List Char) : Prop := d ≠ [] ∧ ∀ c ∈ d, isAlphaAZ c = true

/-- No two adjacent slashes. -/
def noDoubleSlash (s : List Char) : Prop :=
  s.Chain' (fun a b => ¬(a = '/' ∧ b = '/'))

/-- A suffix in already-normalized form: starts with a slash, contains no
backslash and no whitespace, and has no doubled slash.  Every suffix is
equivalent to such a suffix up to the normalization of normalize_path. -/
def canonicalTail (s : List Char) : Prop :=
  s.head? = some '/' ∧ (∀ c ∈ s, c ≠ '\\' ∧ c.isWhitespace = false) ∧ noDoubleSlash s

/-- The canonical drive path of a style, built from a drive run and a suffix
exactly the way build_converted_path renders a parsed drive path in that
style. -/
def canonPath (style : String) (d s : List Char) : List Char :=
  build_converted_path (some d) s style []

end Paths

namespace Tools

/-- The fixed allow-list supported_tools of JetbrainsMCPServerProxy. -/
def supported_tools : List String :=
  ["get_all_open_file_paths",
   "get_file_problems",
   "get_file_text_by_path",
   "get_project_dependencies",
   "get_project_modules",
   "get_project_problems",
   "list_directory_tree",
   "reformat_file",
   "rename_refactoring",
   "replace_text_in_file",
   "search_in_files_by_regex",
   "search_in_files_by_text"]

/-- The catalogue post-processing of _do_list_tools (a tool is modelled by its
name, the only field the code inspects): when the upstream catalogue is
non-empty and contains at least one unsupported name, the catalogue is
filtered to the allow-list and then sorted ascending by name; otherwise the
catalogue is returned untouched. -/
def filter_list_tools (tools : List String) : List String :=
  if tools ≠ [] then
    let unsupported := tools.filter (fun t => decide (t ∉ supported_tools))
    if unsupported ≠ [] then
      List.insertionSort (· ≤ ·) (tools.filter (fun t => decide (t ∈ supported_tools)))
    else tools
  else tools

end Tools

namespace Lifecycle

/-- The SS status enum of the proxy. -/
inductive SS where
  | STOPPED
  | STARTING
  | STARTED
  | STOPPING
deriving DecidableEq, Repr

/-- The supervisor state visible to concurrent callers: the status field and
whether the server field (self.server) is non-empty. -/
structure ProxyState where
  status : SS
  serverSome : Bool
deriving DecidableEq, Repr

/-- The atomic state changes of the supervisor, one constructor per assignment
in JetbrainsMCPServerProxy.py; between any two of them another task can run,
so every intermediate state is observable.
  * startBegin:  _start sets status to STARTING (only from STOPPED).
  * doStartSet:  _do_start assigns self.server while status is still STARTING.
  * startCommit: _start sets status to STARTED after _do_start succeeded
                 (so the server field has been assigned).
  * startFail:   _start sets status back to STOPPED when _do_start raised on
                 every attempt; on those paths self.server was never assigned.
  * stopBegin:   _stop sets status to STOPPING (only from STARTED).
  * stopClear:   the finally block of _stop assigns self.server = None while
                 status is still STOPPING.
  * stopCommit:  _stop sets status to STOPPED after clearing the server field. -/
inductive ProxyStep : ProxyState → ProxyState → Prop where
  | startBegin (b : Bool) : ProxyStep ⟨.STOPPED, b⟩ ⟨.STARTING, b⟩
  | doStartSet (b : Bool) : ProxyStep ⟨.STARTING, b⟩ ⟨.STARTING, true⟩
  | startCommit : ProxyStep ⟨.STARTING, true⟩ ⟨.STARTED, true⟩
  | startFail : ProxyStep ⟨.STARTING, false⟩ ⟨.STOPPED, false⟩
  | stopBegin (b : Bool) : ProxyStep ⟨.STARTED, b⟩ ⟨.STOPPING, b⟩
  | stopClear (b : Bool) : ProxyStep ⟨.STOPPING, b⟩ ⟨.STOPPING, false⟩
  | stopCommit : ProxyStep ⟨.STOPPING, false⟩ ⟨.STOPPED, false⟩

/-- The initial supervisor state: status STOPPED, server field None. -/
def initState : ProxyState := ⟨.STOPPED, false⟩

/-- The states reachable by any interleaving of start, stop and restart
(restart is stop followed by start, so it adds no step of its own). -/
inductive Reachable : ProxyState → Prop where
  | init : Reachable initState
  | step {s t : ProxyState} : Reachable s → ProxyStep s t → Reachable t

/-- The invariant asserted by the specification: the session field is
non-empty iff the status is STARTED or STOPPING. -/
def specInvariant (s : ProxyState) : Prop :=
  s.serverSome = true ↔ (s.status = .STARTED ∨ s.status = .STOPPING)

instance (s : ProxyState) : Decidable (specInvariant s) := by
  unfold specInvariant; infer_instance

end Lifecycle

namespace Retry

/-- The Python exception values that matter to the retry executor and to the
restart-on-error hook. toolError is modelled from the spec: ToolError
(schema.py, which is not part of the published sources) is an exception
carrying a numeric code and a message; code 408 marks a timeout tool error.
timeoutErr covers TimeoutError and asyncio.TimeoutError (the same class). -/
inductive PyErr where
  | toolError (code : Int) (msg : String)
  | timeoutErr (msg : String)
  | otherErr (msg : String)
deriving DecidableEq, Repr

/-- Whether an exception is a transport-level timeout, the isinstance test of
_restart_on_error. -/
def isTimeoutLike : PyErr → Bool
  | .timeoutErr _ => true
  | _ => false

/-- Whether an exception is a ToolError with code 408. -/
def isTool408 : PyErr → Bool
  | .toolError c _ => c = 408
  | _ => false

/-- The observable events of one run of utils.get: the invocation of the
callable on an attempt, a call of the attempt hook (with the backoff and the
recorded error it receives), and a sleep of a given duration. -/
inductive REvent where
  | attemptStart (n : Nat)
  | hookCall (n : Nat) (backoff : Rat) (e : PyErr)
  | sleep (d : Rat)
deriving DecidableEq, Repr

/-- The way one run of utils.get ends: a returned value, a raised exception
(the recorded last error, a non-retryable error, or a timeout raised while
awaiting the attempt or the hook), or one of the two dead branches that
synthesize a TimeoutError when no last error was recorded. -/
inductive GetRes (α : Type) where
  | ok (v : α)
  | raised (e : PyErr)
  | synthTimeout
deriving DecidableEq, Repr

/-- The behaviour of one attempt of the supplied async callable under a mocked
monotonic clock: how long the awaited call runs and what it produces. -/
structure AttemptSpec (α : Type) where
  dur : Rat
  out : Except PyErr α

/-- The retry keyword arguments of utils.get, before clamping. -/
structure RetryArgs where
  timeout : Rat
  maxAttempts : Int
  initialBackoff : Rat
  maxBackoff : Rat
  multiplier : Rat

/-- The clamping performed at the top of utils.get: at least one attempt,
initial backoff at least 0.1, max backoff at least 1.0, multiplier at
least 1.0. -/
def clampArgs (a : RetryArgs) : RetryArgs :=
  { timeout := a.timeout
    maxAttempts := max 1 a.maxAttempts
    initialBackoff := max (1/10) a.initialBackoff
    maxBackoff := max 1 a.maxBackoff
    multiplier := max 1 a.multiplier }

/-- The result of raising last_err with the fallback of synthesizing a
TimeoutError when last_err is None (lines 299-301 and 313-317 of utils.py;
the None branch is dead there because the post-failure code only runs after
a retryable failure recorded an error). -/
def raiseLast {α : Type} : Option PyErr → GetRes α
  | some e => .raised e
  | none => .synthTimeout

/-- The post-failure phase of utils.get (lines 292-321), entered after an
attempt failed with a retryable error: exhaustion check, deadline check
(raising the recorded last error), optional attempt hook bounded by the
remaining time, then the sleep of min backoff remaining with its own
deadline check.  Returns either a terminal outcome with the events emitted,
or the new clock, new backoff and events for the next attempt. -/
def afterFail {α : Type} (hookDur : Option (Nat → Rat)) (deadline maxB mult : Rat)
    (maxAtt attempt : Nat) (now backoff : Rat) (lastErr : Option PyErr) :
    (GetRes α × List REvent) ⊕ (Rat × Rat × List REvent) :=
  if maxAtt ≤ attempt then
    .inl (raiseLast lastErr, [])
  else
    let remaining := deadline - now
    if remaining ≤ 0 then
      .inl (raiseLast lastErr, [])
    else
      match hookDur, lastErr with
      | some hd, some e =>
        let d := hd attempt
        if remaining < d then
          -- asyncio.wait_for around the hook raises TimeoutError, which
          -- propagates out of get uncaught
          .inl (.raised (.timeoutErr "hook"), [.hookCall attempt backoff e])
        else
          let now1 := now + d
          let remaining1 := deadline - now1
          let st := min backoff remaining1
          if st ≤ 0 then
            .inl (raiseLast lastErr, [.hookCall attempt backoff e])
          else
            .inr (now1 + st, min maxB (backoff * mult),
              [.hookCall attempt backoff e, .sleep st])
      | _, _ =>
        let st := min backoff remaining
        if st ≤ 0 then
          .inl (raiseLast lastErr, [])
        else
          .inr (now + st, min maxB (backoff * mult), [.sleep st])

/-- The attempt loop of utils.get under a mocked clock, one recursion step per
attempt (fuel counts the attempts still allowed).  Each iteration invokes the
callable (emitting attemptStart), checks the deadline before awaiting (a
TimeoutError raised inside the try block, hence caught when the retryable set
matches it), awaits bounded by the remaining time, and on a retryable failure
runs afterFail. -/
def getLoop {α : Type} (retryable : PyErr → Bool) (script : Nat → AttemptSpec α)
    (hookDur : Option (Nat → Rat)) (deadline maxB mult : Rat) (maxAtt : Nat) :
    Nat → Nat → Rat → Rat → GetRes α × List REvent
  | _, 0, _, _ => (raiseLast none, [])
  | attempt, fuel + 1, now, backoff =>
    let spec := script attempt
    let remaining := deadline - now
    let failWith (e : PyErr) (now1 : Rat) : GetRes α × List REvent :=
      if retryable e then
        match afterFail (α := α) hookDur deadline maxB mult maxAtt attempt now1 backoff (some e) with
        | .inl (res, evs) => (res, .attemptStart attempt :: evs)
        | .inr (now2, backoff2, evs) =>
          let rec2 := getLoop retryable script hookDur deadline maxB mult maxAtt
            (attempt + 1) fuel now2 backoff2
          (rec2.1, .attemptStart attempt :: (evs ++ rec2.2))
      else (.raised e, [.attemptStart attempt])
    if remaining ≤ 0 then
      failWith (.timeoutErr "preAttempt") now
    else if remaining < spec.dur then
      failWith (.timeoutErr "waitFor") (now + remaining)
    else
      match spec.out with
      | .ok v => (.ok v, [.attemptStart attempt])
      | .error e => failWith e (now + spec.dur)

/-- utils.get under a mocked monotonic clock starting at 0: clamp the retry
parameters, set the absolute deadline, and run the attempt loop from
attempt 1 with the clamped initial backoff. -/
def get {α : Type} (a : RetryArgs) (retryable : PyErr → Bool)
    (script : Nat → AttemptSpec α) (hookDur : Option (Nat → Rat)) :
    GetRes α × List REvent :=
  let c := clampArgs a
  getLoop retryable script hookDur c.timeout c.maxBackoff c.multiplier
    c.maxAttempts.toNat 1 c.maxAttempts.toNat 0 c.initialBackoff

/-- The canonical event trace of a run in which every attempt fails with a
retryable error and the deadline never gets in the way, written with the
closed-form backoff values: the attempt of index a is followed (while
attempts remain) by a hook call and a sleep that both carry the backoff
min maxB (b0 * mult ^ (a - 1)), i.e. the capped geometric progression of
the specification. -/
def cfTrace (errOf : Nat → PyErr) (b0 maxB mult : Rat) :
    Nat → Nat → List REvent
  | _, 0 => []
  | a, 1 => [.attemptStart a]
  | a, fuel + 2 =>
    .attemptStart a
      :: .hookCall a (min maxB (b0 * mult ^ (a - 1))) (errOf a)
      :: .sleep (min maxB (b0 * mult ^ (a - 1)))
      :: cfTrace errOf b0 maxB mult (a + 1) (fuel + 1)

end Retry

namespace Hook

open Retry

/-- What _restart_on_error did on one invocation. -/
inductive RestartDecision where
  | skippedTimeout
  | skippedToolTimeout
  | skippedNoTime
  | restarted
  | restartFailedIgnored
deriving DecidableEq, Repr

/-- Whether the decision means a restart of the upstream session was
initiated. -/
def attemptedRestart : RestartDecision → Bool
  | .restarted => true
  | .restartFailedIgnored => true
  | _ => false

/-- JetbrainsMCPServerProxy._restart_on_error: skip the restart on a timeout
error or a code-408 tool error; otherwise, with the remaining deadline
positive, attempt the restart and swallow any exception it raises
(restartResult is the outcome of the awaited self._restart call). -/
def restart_on_error (error : Option PyErr) (deadline now : Rat)
    (restartResult : Except PyErr Unit) : RestartDecision :=
  let attempt : RestartDecision :=
    if deadline - now ≤ 0 then .skippedNoTime
    else
      match restartResult with
      | .ok _ => .restarted
      | .error _ => .restartFailedIgnored
  match error with
  | some e =>
    if isTimeoutLike e then .skippedTimeout
    else if isTool408 e then .skippedToolTimeout
    else attempt
  | none => attempt

end Hook

namespace Handlers

open Paths

/-- A JSON value, the model of what json.loads returns. -/
inductive Json where
  | null
  | bool (b : Bool)
  | num (n : Int)
  | str (s : String)
  | arr (elems : List Json)
  | obj (fields : List (String × Json))

/-- Python dict.get with default None on the field list of a JSON object. -/
def dictGet (fs : List (String × Json)) (k : String) : Option Json :=
  (fs.find? (fun f => f.1 = k)).map (fun f => f.2)

/-- Python dict item assignment: replace the value of an existing key in
place, append otherwise. -/
def dictSet (fs : List (String × Json)) (k : String) (v : Json) :
    List (String × Json) :=
  if fs.any (fun f => f.1 = k) then
    fs.map (fun f => if f.1 = k then (k, v) else f)
  else fs ++ [(k, v)]

/-- The Python guard value and isinstance(value, str) and value.strip():
true exactly for a non-blank JSON string. -/
def strTruthy : Json → Bool
  | .str s => s.trim ≠ ""
  | _ => false

/-- The string payload of a JSON string value. -/
def strVal : Json → String
  | .str s => s
  | _ => ""

/-- A content block of a CallToolResult: either a TextContent with its text,
or any other block (which the handlers leave untouched). -/
inductive Content where
  | text (s : String)
  | other
deriving DecidableEq, Repr

/-- The upstream CallToolResult as far as the response rewriting looks at it. -/
structure CallToolResult where
  isError : Bool
  content : List Content
deriving DecidableEq, Repr

/-- The in-place rewrite of one parsed text block of the
get_all_open_file_paths response: convert activeFilePath when it is a
non-blank string, and rebuild openFiles keeping only its non-blank string
entries, converted.  none models the AttributeError raised when json.loads
did not return a dict. -/
def rewriteOpenFilePathsJson (conv : String → String) : Json → Option Json
  | .obj fs =>
    let fs1 :=
      match dictGet fs "activeFilePath" with
      | some v => if strTruthy v then dictSet fs "activeFilePath" (.str (conv (strVal v))) else fs
      | none => fs
    let fs2 :=
      match dictGet fs1 "openFiles" with
      | some (.arr xs) =>
        let converted := xs.filterMap (fun x =>
          if strTruthy x then some (Json.str (conv (strVal x))) else none)
        dictSet fs1 "openFiles" (.arr converted)
      | _ => fs1
    some (.obj fs2)
  | _ => none

/-- The in-place rewrite of one parsed text block of the get_file_problems
response: convert filePath when it is a non-blank string. -/
def rewriteFileProblemsJson (conv : String → String) : Json → Option Json
  | .obj fs =>
    some (.obj
      (match dictGet fs "filePath" with
       | some v => if strTruthy v then dictSet fs "filePath" (.str (conv (strVal v))) else fs
       | none => fs))
  | _ => none

/-- The response rewriting phase of _do_get_all_open_file_paths (lines
614-645): skipped entirely unless the path styles differ, the response is a
success and the content is non-empty; each TextContent is parsed, rewritten
and re-serialized.  There is no try/except around this loop, so a failing
parse or rewrite propagates: the error outcome models the raised exception. -/
def getAllOpenFilePathsResp (loads : String → Option Json) (dumps : Json → String)
    (conv : String → String) (pathMismatch : Bool) (r : CallToolResult) :
    Except Unit CallToolResult :=
  if ¬ pathMismatch ∨ r.isError = true ∨ r.content = [] then .ok r
  else do
    let cs ← r.content.mapM (fun c =>
      match c with
      | .other => Except.ok Content.other
      | .text s =>
        match loads s with
        | none => Except.error ()
        | some j =>
          match rewriteOpenFilePathsJson conv j with
          | none => Except.error ()
          | some j2 => Except.ok (Content.text (dumps j2)))
    .ok { isError := r.isError, content := cs }

/-- The body of the try block of the response loop of _do_get_file_problems:
rewrite the text blocks one by one, mutating in place; when a parse or
rewrite raises, the loop stops with the blocks already rewritten kept and
the rest (including the failing block) unchanged. -/
def fileProblemsGo (loads : String → Option Json) (dumps : Json → String)
    (conv : String → String) : List Content → List Content
  | [] => []
  | .other :: rest => .other :: fileProblemsGo loads dumps conv rest
  | .text s :: rest =>
    match loads s with
    | none => .text s :: rest
    | some j =>
      match rewriteFileProblemsJson conv j with
      | none => .text s :: rest
      | some j2 => .text (dumps j2) :: fileProblemsGo loads dumps conv rest

/-- The response rewriting phase of _do_get_file_problems (lines 723-744):
same guard as get_all_open_file_paths, but the loop is wrapped in
try/except BaseException, so a failing inner rewrite is logged and the
response is returned instead of raising. -/
def getFileProblemsResp (loads : String → Option Json) (dumps : Json → String)
    (conv : String → String) (pathMismatch : Bool) (r : CallToolResult) :
    CallToolResult :=
  if ¬ pathMismatch ∨ r.isError = true ∨ r.content = [] then r
  else { isError := r.isError, content := fileProblemsGo loads dumps conv r.content }

end Handlers

/-! ## Shared helper lemmas -/

namespace Retry

theorem clampArgs_idem (a : RetryArgs) : clampArgs (clampArgs a) = clampArgs a := by
  simp [clampArgs, ← max_assoc]

theorem one_le_clamped_attempts (a : RetryArgs) :
    1 ≤ (clampArgs a).maxAttempts.toNat := by
  have h : (1 : Int) ≤ (clampArgs a).maxAttempts := le_max_left _ _
  omega

end Retry

/-! ## C10 -/

/-- C10: the retry parameters supplied to the executor are silently clamped
before use (max_attempts to at least 1, initial_backoff to at least 0.1,
max_backoff to at least 1.0, multiplier to at least 1.0): running get on any
arguments is the same as running it on the clamped arguments, and the first
attempt is always executed (the first event of every run is the invocation of
attempt 1). -/
theorem c10_clamping {α : Type} (a : Retry.RetryArgs) (retryable : Retry.PyErr → Bool)
    (script : Nat → Retry.AttemptSpec α) (hookDur : Option (Nat → Rat)) :
    Retry.get a retryable script hookDur = Retry.get (Retry.clampArgs a) retryable script hookDur ∧
    (Retry.get a retryable script hookDur).2.head? = some (Retry.REvent.attemptStart 1) := by
  constructor
  · simp only [Retry.get, Retry.clampArgs_idem]
  · obtain ⟨k, hk⟩ : ∃ k, (Retry.clampArgs a).maxAttempts.toNat = k + 1 := by
      have := Retry.one_le_clamped_attempts a
      exact ⟨(Retry.clampArgs a).maxAttempts.toNat - 1, by omega⟩
    simp only [Retry.get, hk]
    rw [Retry.getLoop]
    repeat' split
    all_goals try simp
    all_goals (split <;> (try split) <;> simp)

/-! ## C8 -/

/-- C8: the restart-on-error attempt hook never initiates a restart when the
attempt failed with a timeout error (a TimeoutError or a code-408 ToolError);
a restart is attempted exactly when the error is not a timeout of either kind
and the remaining deadline is positive; and when the attempted restart fails,
the hook still returns normally with the failure ignored. -/
theorem c8_restart_on_error (e : Retry.PyErr) (deadline now : Rat)
    (rr : Except Retry.PyErr Unit) :
    ((Retry.isTimeoutLike e = true ∨ Retry.isTool408 e = true) →
        Hook.attemptedRestart (Hook.restart_on_error (some e) deadline now rr) = false) ∧
    (Hook.attemptedRestart (Hook.restart_on_error (some e) deadline now rr) = true ↔
        (Retry.isTimeoutLike e = false ∧ Retry.isTool408 e = false ∧ 0 < deadline - now)) ∧
    (∀ err : Retry.PyErr,
        (Retry.isTimeoutLike e = false ∧ Retry.isTool408 e = false ∧ 0 < deadline - now) →
        Hook.restart_on_error (some e) deadline now (.error err) =
          Hook.RestartDecision.restartFailedIgnored) := by
  have hgen : ∀ rr' : Except Retry.PyErr Unit,
      Hook.restart_on_error (some e) deadline now rr' =
        (if Retry.isTimeoutLike e then Hook.RestartDecision.skippedTimeout
         else if Retry.isTool408 e then Hook.RestartDecision.skippedToolTimeout
         else if deadline - now ≤ 0 then Hook.RestartDecision.skippedNoTime
         else match rr' with
           | .ok _ => Hook.RestartDecision.restarted
           | .error _ => Hook.RestartDecision.restartFailedIgnored) := by
    intro rr'
    rfl
  by_cases h1 : Retry.isTimeoutLike e = true
  · simp [hgen, h1, Hook.attemptedRestart]
  · by_cases h2 : Retry.isTool408 e = true
    · simp [hgen, h1, h2, Hook.attemptedRestart]
    · by_cases h3 : deadline - now ≤ 0
      · have h4 : ¬ (0 < deadline - now) := not_lt.mpr h3
        cases rr <;> simp [hgen, h1, h2, h3, h4, Hook.attemptedRestart]
      · have h4 : 0 < deadline - now := lt_of_not_le h3
        cases rr <;>
          simp [hgen, h1, h2, h3, h4, Hook.attemptedRestart,
            eq_false_of_ne_true h1, eq_false_of_ne_true h2]

/-- Witness for C8: a timeout error skips the restart, and a failing restart
on an ordinary error is swallowed into a normal return. -/
theorem c8_witness :
    Hook.attemptedRestart
      (Hook.restart_on_error (some (Retry.PyErr.timeoutErr "t")) 10 0 (.ok ())) = false ∧
    Hook.restart_on_error (some (Retry.PyErr.otherErr "x")) 10 0
      (.error (Retry.PyErr.otherErr "y")) = Hook.RestartDecision.restartFailedIgnored :=
  ⟨(c8_restart_on_error (Retry.PyErr.timeoutErr "t") 10 0 (.ok ())).1 (Or.inl (by decide)),
   (c8_restart_on_error (Retry.PyErr.otherErr "x") 10 0
      (.error (Retry.PyErr.otherErr "y"))).2.2 (Retry.PyErr.otherErr "y")
      ⟨by decide, by decide, by norm_num⟩⟩

/-! ## C3 -/

/-- C3 counterexample: the state with status STARTING and a non-empty session
field is reachable (start from STOPPED, then _do_start assigns self.server
before _start commits the STARTED status), and it violates the claimed
invariant that the session is non-empty iff the status is STARTED or
STOPPING. -/
theorem c3_counterexample :
    Lifecycle.Reachable ⟨Lifecycle.SS.STARTING, true⟩ ∧
    ¬ Lifecycle.specInvariant ⟨Lifecycle.SS.STARTING, true⟩ := by
  constructor
  · exact Lifecycle.Reachable.step
      (Lifecycle.Reachable.step Lifecycle.Reachable.init (Lifecycle.ProxyStep.startBegin false))
      (Lifecycle.ProxyStep.doStartSet false)
  · decide

/-- C3 amended: in every reachable state the status is one of STOPPED,
STARTING, STARTED, STOPPING, and the iff between a non-empty session field
and the status holds at the stable states: STOPPED implies the session field
is empty and STARTED implies it is non-empty.  (During the transitions the
session may be non-empty while still STARTING, just before the commit to
STARTED, and empty while still STOPPING, just before the commit to
STOPPED.) -/
theorem c3_amended (s : Lifecycle.ProxyState) (h : Lifecycle.Reachable s) :
    (s.status = Lifecycle.SS.STOPPED ∨ s.status = Lifecycle.SS.STARTING ∨
      s.status = Lifecycle.SS.STARTED ∨ s.status = Lifecycle.SS.STOPPING) ∧
    (s.status = Lifecycle.SS.STOPPED → s.serverSome = false) ∧
    (s.status = Lifecycle.SS.STARTED → s.serverSome = true) := by
  induction h with
  | init => decide
  | step _ hstep _ => cases hstep <;> simp

/-- Witness for C3 amended at the initial state. -/
theorem c3_witness :
    ((Lifecycle.initState.status = Lifecycle.SS.STOPPED ∨
        Lifecycle.initState.status = Lifecycle.SS.STARTING ∨
        Lifecycle.initState.status = Lifecycle.SS.STARTED ∨
        Lifecycle.initState.status = Lifecycle.SS.STOPPING) ∧
      (Lifecycle.initState.status = Lifecycle.SS.STOPPED →
        Lifecycle.initState.serverSome = false) ∧
      (Lifecycle.initState.status = Lifecycle.SS.STARTED →
        Lifecycle.initState.serverSome = true)) :=
  c3_amended Lifecycle.initState Lifecycle.Reachable.init

/-! ## C1 -/

/-- C1 counterexample: a catalogue containing only allowed tools, in
descending order, is returned unchanged by the list_tools post-processing
(the filter-and-sort branch only runs when an unsupported name is present),
so the returned list is not sorted ascending by name as claimed. -/
theorem c1_counterexample :
    Tools.filter_list_tools ["get_file_problems", "get_all_open_file_paths"] =
      ["get_file_problems", "get_all_open_file_paths"] ∧
    ¬ List.Sorted (· ≤ ·)
        (Tools.filter_list_tools ["get_file_problems", "get_all_open_file_paths"]) := by
  constructor
  · rfl
  · intro hs
    have h := (List.sorted_cons.mp hs).1 "get_all_open_file_paths" (by simp)
    rw [String.le_iff_toList_le] at h
    exact absurd h (by decide)

/-- C1 amended: the list_tools result always contains exactly the tools of
the catalogue whose names are on the allow-list (as a permutation of the
filtered catalogue), and it is sorted ascending by name whenever the
catalogue contained at least one unsupported tool; a catalogue that contains
only allowed tools is returned in its original order. -/
theorem c1_amended (tools : List String) :
    (Tools.filter_list_tools tools).Perm
      (tools.filter (fun t => decide (t ∈ Tools.supported_tools))) ∧
    (tools.filter (fun t => decide (t ∉ Tools.supported_tools)) ≠ [] →
      List.Sorted (· ≤ ·) (Tools.filter_list_tools tools)) := by
  unfold Tools.filter_list_tools
  dsimp only
  split_ifs with h0 h1
  · exact ⟨List.perm_insertionSort _ _, fun _ => List.sorted_insertionSort _ _⟩
  · push_neg at h1
    constructor
    · have hself : tools.filter (fun t => decide (t ∈ Tools.supported_tools)) = tools := by
        rw [List.filter_eq_self]
        intro t ht
        have := List.filter_eq_nil_iff.mp h1 t ht
        simpa using this
      rw [hself]
    · intro hcon
      exact absurd h1 hcon
  · push_neg at h0
    subst h0
    simp

/-- Witness for C1 amended: a catalogue with an unsupported tool gets
filtered and sorted. -/
theorem c1_witness :
    (Tools.filter_list_tools ["unknown_tool", "reformat_file", "get_file_problems"]).Perm
      (["unknown_tool", "reformat_file", "get_file_problems"].filter
        (fun t => decide (t ∈ Tools.supported_tools))) ∧
    List.Sorted (· ≤ ·)
      (Tools.filter_list_tools ["unknown_tool", "reformat_file", "get_file_problems"]) :=
  ⟨(c1_amended ["unknown_tool", "reformat_file", "get_file_problems"]).1,
   (c1_amended ["unknown_tool", "reformat_file", "get_file_problems"]).2 (by decide)⟩

/-! ## C6 -/

namespace Paths

theorem detect_ne_nil {p : List Char} {d : String}
    (h : detect_path_type p = some d) : p ≠ [] := by
  intro hp
  subst hp
  simp [detect_path_type, normalize_path] at h

theorem detect_mem_known {p : List Char} {d : String}
    (h : detect_path_type p = some d) : d ∈ knownTypes := by
  unfold detect_path_type at h
  dsimp only at h
  split_ifs at h <;> simp_all [knownTypes]

theorem convert_path_self (p : List Char) (ft : String) :
    convert_path p ft ft = p := by
  unfold convert_path
  rw [if_pos (Or.inr (Or.inl rfl))]

theorem convert_path_unknown_to (p : List Char) (ft tt : String)
    (h : tt ∉ knownTypes) : convert_path p ft tt = p := by
  unfold convert_path
  rw [if_pos (Or.inr (Or.inr h))]

theorem convert_path_detected (p : List Char) (ft tt d : String)
    (hp : p ≠ []) (hne : ft ≠ tt) (hk : tt ∈ knownTypes)
    (hdet : detect_path_type p = some d) :
    convert_path p ft tt =
      if d = tt then p else convertCore p (if d ≠ ft then d else ft) tt := by
  unfold convert_path
  rw [if_neg (by simp [hp, hne, hk]), hdet]

theorem convert_path_undetected (p : List Char) (ft tt : String)
    (hp : p ≠ []) (hne : ft ≠ tt) (hk : tt ∈ knownTypes)
    (hdet : detect_path_type p = none) :
    convert_path p ft tt = convertCore p ft tt := by
  unfold convert_path
  rw [if_neg (by simp [hp, hne, hk]), hdet]

end Paths

/-- C6 counterexample: the claim fails when the declared source and target
styles coincide, because the same-style short circuit runs before detection.
Converting a windows path from wsl to wsl returns it unchanged, while
converting it from its detected style windows to wsl rewrites it. -/
theorem c6_counterexample :
    Paths.detect_path_type "C:/a".toList = some "windows" ∧
    Paths.convert_path "C:/a".toList "wsl" "wsl" = "C:/a".toList ∧
    Paths.convert_path "C:/a".toList "windows" "wsl" = "/mnt/c/a".toList ∧
    Paths.convert_path "C:/a".toList "wsl" "wsl" ≠
      Paths.convert_path "C:/a".toList "windows" "wsl" := by
  refine ⟨rfl, rfl, rfl, ?_⟩
  decide

/-- C6 amended: detection dominance holds whenever the declared source and
target styles differ: if detect_path_type returns a style d different from
from_type, then convert_path with the declared from_type equals convert_path
with d, provided from_type is not equal to to_type (when they are equal the
same-style short circuit returns the input before detection runs). -/
theorem c6_amended (p : List Char) (ft tt d : String)
    (hdet : Paths.detect_path_type p = some d) (hdf : d ≠ ft) (hne : ft ≠ tt) :
    Paths.convert_path p ft tt = Paths.convert_path p d tt := by
  have hp : p ≠ [] := Paths.detect_ne_nil hdet
  by_cases hk : tt ∈ Paths.knownTypes
  · by_cases hdt : d = tt
    · subst hdt
      rw [Paths.convert_path_detected p ft d d hp hne hk hdet, if_pos rfl,
        Paths.convert_path_self]
    · rw [Paths.convert_path_detected p ft tt d hp hne hk hdet,
        Paths.convert_path_detected p d tt d hp hdt hk hdet,
        if_neg hdt, if_neg hdt, if_pos hdf, if_neg (by simp)]
  · rw [Paths.convert_path_unknown_to p ft tt hk, Paths.convert_path_unknown_to p d tt hk]

/-- Witness for C6 amended at the windows-detected path above, declared as
windows_git_bash and converted to wsl. -/
theorem c6_witness :
    Paths.convert_path "C:/a".toList "windows_git_bash" "wsl" =
      Paths.convert_path "C:/a".toList "windows" "wsl" :=
  c6_amended "C:/a".toList "windows_git_bash" "wsl" "windows" rfl
    (by decide) (by decide)

/-! ## C9 -/

namespace Paths

theorem detect_drive_none {q : List Char} {ft : String}
    (h : (detect_drive_and_path q ft).1 = none) :
    detect_drive_and_path q ft = (none, q) := by
  unfold detect_drive_and_path parse_from_wsl parse_from_windows_git_bash
    parse_from_windows at h ⊢
  split_ifs at h ⊢ <;> rfl

end Paths

/-- C9: convert_path is total (it is a plain function of this development,
so it terminates and raises nothing on any input), unknown target styles
return the input unchanged, and when the target style is windows while the
parsed path has no drive and an absolute tail the original input is returned
unchanged. -/
theorem c9_safety (p : List Char) (ft tt : String) :
    (tt ∉ Paths.knownTypes → Paths.convert_path p ft tt = p) ∧
    (tt = "windows" → Paths.detect_path_type p = none →
      (Paths.detect_drive_and_path (Paths.normalize_path p) ft).1 = none →
      (Paths.normalize_path p).head? = some '/' →
      Paths.convert_path p ft tt = p) := by
  constructor
  · exact fun h => Paths.convert_path_unknown_to p ft tt h
  · intro htt hdet hdr hhead
    subst htt
    by_cases hp : p = []
    · subst hp
      unfold Paths.convert_path
      rw [if_pos (Or.inl rfl)]
    · by_cases hft : ft = "windows"
      · subst hft
        exact Paths.convert_path_self p _
      · rw [Paths.convert_path_undetected p ft "windows" hp hft
          (by simp [Paths.knownTypes]) hdet]
        unfold Paths.convertCore
        by_cases hfk : ft ∈ Paths.knownTypes
        · rw [if_neg (not_not_intro hfk)]
          dsimp only
          rw [Paths.detect_drive_none hdr]
          simp [Paths.build_converted_path, Paths.driveTruthy, hhead]
        · rw [if_pos hfk]

/-- Witness for C9: an unknown target style and an impossible windows
conversion (driveless absolute path) both return the input unchanged. -/
theorem c9_witness :
    Paths.convert_path "/foo/bar".toList "wsl" "mac" = "/foo/bar".toList ∧
    Paths.convert_path "/foo/bar".toList "wsl" "windows" = "/foo/bar".toList :=
  ⟨(c9_safety "/foo/bar".toList "wsl" "mac").1 (by decide),
   (c9_safety "/foo/bar".toList "wsl" "windows").2 rfl (by decide) (by decide) rfl⟩

/-! ## C2 -/

/-- C2 counterexample: with mismatching path styles, a successful response
and a single text block whose payload fails to parse as JSON, the
get_all_open_file_paths handler raises (the rewrite loop has no try/except),
instead of returning the original upstream response as claimed. -/
theorem c2_counterexample :
    Handlers.getAllOpenFilePathsResp (fun _ => none) (fun _ => "") (fun s => s)
        true ⟨false, [Handlers.Content.text "not json"]⟩ = .error () ∧
    Handlers.getAllOpenFilePathsResp (fun _ => none) (fun _ => "") (fun s => s)
        true ⟨false, [Handlers.Content.text "not json"]⟩ ≠
      .ok ⟨false, [Handlers.Content.text "not json"]⟩ := by
  constructor
  · rfl
  · intro h
    exact Except.noConfusion h

/-- C2 amended: for both embedded handlers the response rewrite runs only
when the path styles differ, the response is a success and the content is
non-empty (otherwise the response is returned unchanged); on a failing inner
rewrite the get_file_problems handler returns the response without raising
(unchanged when the failing text block is the first one), whereas in
get_all_open_file_paths the failure propagates to the caller. -/
theorem c2_amended (loads : String → Option Handlers.Json)
    (dumps : Handlers.Json → String) (conv : String → String)
    (mismatch : Bool) (r : Handlers.CallToolResult) :
    ((¬ mismatch = true ∨ r.isError = true ∨ r.content = []) →
      Handlers.getAllOpenFilePathsResp loads dumps conv mismatch r = .ok r ∧
      Handlers.getFileProblemsResp loads dumps conv mismatch r = r) ∧
    (∀ s rest, mismatch = true → r.isError = false →
      r.content = Handlers.Content.text s :: rest → loads s = none →
      Handlers.getFileProblemsResp loads dumps conv mismatch r = r) := by
  constructor
  · intro h
    unfold Handlers.getAllOpenFilePathsResp Handlers.getFileProblemsResp
    rw [if_pos h, if_pos h]
    exact ⟨rfl, rfl⟩
  · intro s rest hm he hc hl
    obtain ⟨ie, co⟩ := r
    dsimp only at he hc
    subst he
    subst hc
    unfold Handlers.getFileProblemsResp
    rw [if_neg (by simp [hm])]
    unfold Handlers.fileProblemsGo
    rw [hl]

/-- Witness for C2 amended: with identical path styles both handlers return
the response unchanged, and a failing parse in get_file_problems returns the
original response. -/
theorem c2_witness :
    (Handlers.getAllOpenFilePathsResp (fun _ => none) (fun _ => "") (fun s => s) false
        ⟨false, [Handlers.Content.text "x"]⟩ =
          .ok ⟨false, [Handlers.Content.text "x"]⟩ ∧
      Handlers.getFileProblemsResp (fun _ => none) (fun _ => "") (fun s => s) false
        ⟨false, [Handlers.Content.text "x"]⟩ = ⟨false, [Handlers.Content.text "x"]⟩) ∧
    Handlers.getFileProblemsResp (fun _ => none) (fun _ => "") (fun s => s) true
        ⟨false, [Handlers.Content.text "oops"]⟩ = ⟨false, [Handlers.Content.text "oops"]⟩ :=
  ⟨(c2_amended (fun _ => none) (fun _ => "") (fun s => s) false
      ⟨false, [Handlers.Content.text "x"]⟩).1 (Or.inl (by simp)),
   (c2_amended (fun _ => none) (fun _ => "") (fun s => s) true
      ⟨false, [Handlers.Content.text "oops"]⟩).2 "oops" [] rfl rfl rfl rfl⟩

/-! ## C7 -/

/-- C7: whenever the post-failure phase of the retry executor holds a
recorded last error and a deadline check fires, it raises that recorded
error and never a synthesized timeout: this covers the check before the
hook-and-sleep phase, the sleep bound check without a hook, and the sleep
bound check after a hook that fits in the remaining time. -/
theorem c7_last_error {α : Type} (hookDur : Option (Nat → Rat))
    (deadline maxB mult : Rat) (maxAtt attempt : Nat) (now backoff : Rat)
    (e : Retry.PyErr) :
    (deadline - now ≤ 0 →
      Retry.afterFail (α := α) hookDur deadline maxB mult maxAtt attempt now backoff (some e) =
        .inl (.raised e, [])) ∧
    (¬ maxAtt ≤ attempt → 0 < deadline - now →
      min backoff (deadline - now) ≤ 0 →
      Retry.afterFail (α := α) none deadline maxB mult maxAtt attempt now backoff (some e) =
        .inl (.raised e, [])) ∧
    (∀ hd : Nat → Rat, ¬ maxAtt ≤ attempt → 0 < deadline - now →
      ¬ (deadline - now < hd attempt) →
      min backoff (deadline - (now + hd attempt)) ≤ 0 →
      Retry.afterFail (α := α) (some hd) deadline maxB mult maxAtt attempt now backoff (some e) =
        .inl (.raised e, [.hookCall attempt backoff e])) := by
  refine ⟨?_, ?_, ?_⟩
  · intro hle
    unfold Retry.afterFail
    by_cases h1 : maxAtt ≤ attempt
    · rw [if_pos h1]
      rfl
    · rw [if_neg h1]
      dsimp only
      rw [if_pos hle]
      rfl
  · intro h1 h2 h3
    unfold Retry.afterFail
    rw [if_neg h1]
    dsimp only
    rw [if_neg (not_le.mpr h2)]
    rw [if_pos h3]
    rfl
  · intro hd h1 h2 h3 h4
    unfold Retry.afterFail
    rw [if_neg h1]
    dsimp only
    rw [if_neg (not_le.mpr h2)]
    rw [if_neg h3]
    rw [if_pos h4]
    rfl

/-- Witness for C7: the deadline-expired check and the sleep bound check both
raise the recorded error at concrete inputs. -/
theorem c7_witness :
    Retry.afterFail (α := Unit) none 0 60 2 5 1 1 1 (some (Retry.PyErr.otherErr "boom")) =
      .inl (.raised (Retry.PyErr.otherErr "boom"), []) ∧
    Retry.afterFail (α := Unit) (some (fun _ => 9)) 10 60 2 5 1 1 1
        (some (Retry.PyErr.otherErr "late")) =
      .inl (.raised (Retry.PyErr.otherErr "late"),
        [.hookCall 1 1 (Retry.PyErr.otherErr "late")]) :=
  ⟨(c7_last_error none 0 60 2 5 1 1 1 (Retry.PyErr.otherErr "boom")).1 (by norm_num),
   (c7_last_error (some (fun _ => 9)) 10 60 2 5 1 1 1 (Retry.PyErr.otherErr "late")).2.2
     (fun _ => 9) (by norm_num) (by norm_num) (by norm_num) (by norm_num)⟩

/-! ## C4 -/

namespace Retry

theorem afterFail_exhausted {α : Type} (hookDur : Option (Nat → Rat))
    (deadline maxB mult : Rat) (maxAtt attempt : Nat) (now backoff : Rat)
    (e : PyErr) (h : maxAtt ≤ attempt) :
    afterFail (α := α) hookDur deadline maxB mult maxAtt attempt now backoff (some e) =
      .inl (.raised e, []) := by
  unfold afterFail
  rw [if_pos h]
  rfl

theorem afterFail_continue {α : Type} (deadline maxB mult : Rat)
    (maxAtt attempt : Nat) (now backoff : Rat) (e : PyErr)
    (hatt : ¬ maxAtt ≤ attempt) (hrem : 0 < deadline - now)
    (hble : backoff ≤ deadline - now) (hbpos : 0 < backoff) :
    afterFail (α := α) (some (fun _ => 0)) deadline maxB mult maxAtt attempt now backoff (some e) =
      .inr (now + backoff, min maxB (backoff * mult),
        [.hookCall attempt backoff e, .sleep backoff]) := by
  unfold afterFail
  rw [if_neg hatt]
  dsimp only
  rw [if_neg (not_le.mpr hrem), if_neg (by linarith)]
  have h0 : now + (0 : Rat) = now := add_zero now
  rw [h0]
  have hst : min backoff (deadline - now) = backoff := min_eq_left hble
  rw [hst, if_neg (not_le.mpr hbpos)]

theorem getLoop_step {α : Type} (retryable : PyErr → Bool)
    (script : Nat → AttemptSpec α) (hookDur : Option (Nat → Rat))
    (deadline maxB mult : Rat) (maxAtt attempt fuel : Nat) (now backoff : Rat)
    (e : PyErr) (hs : script attempt = ⟨0, Except.error e⟩)
    (hr : retryable e = true) (hrem : 0 < deadline - now) :
    getLoop retryable script hookDur deadline maxB mult maxAtt attempt (fuel + 1) now backoff =
      (match afterFail (α := α) hookDur deadline maxB mult maxAtt attempt now backoff (some e) with
       | .inl (res, evs) => (res, .attemptStart attempt :: evs)
       | .inr (now2, backoff2, evs) =>
         ((getLoop retryable script hookDur deadline maxB mult maxAtt
             (attempt + 1) fuel now2 backoff2).1,
          .attemptStart attempt ::
            (evs ++ (getLoop retryable script hookDur deadline maxB mult maxAtt
              (attempt + 1) fuel now2 backoff2).2))) := by
  rw [getLoop, hs]
  dsimp only
  rw [if_neg (not_le.mpr hrem), if_neg (by linarith), if_pos hr]
  have h0 : now + (0 : Rat) = now := add_zero now
  rw [h0]

theorem min_cap_mul {maxB x c : Rat} (hc : 1 ≤ c) (hm : 0 ≤ maxB) :
    min maxB (min maxB x * c) = min maxB (x * c) := by
  rcases le_total x maxB with h | h
  · rw [min_eq_right h]
  · have h1 : maxB ≤ maxB * c := le_mul_of_one_le_right hm hc
    have h2 : maxB ≤ x * c := h1.trans (mul_le_mul_of_nonneg_right h (by linarith))
    rw [min_eq_left h, min_eq_left h1, min_eq_left h2]

theorem getLoop_allFail {α : Type} (retryable : PyErr → Bool)
    (script : Nat → AttemptSpec α) (errOf : Nat → PyErr)
    (deadline maxB mult b0 : Rat) (maxAtt : Nat)
    (hscript : ∀ n, script n = ⟨0, Except.error (errOf n)⟩)
    (hretry : ∀ n, retryable (errOf n) = true)
    (hmult : 1 ≤ mult) (hmaxB : 1 ≤ maxB) (hb0pos : 0 < b0) :
    ∀ fuel, 1 ≤ fuel → ∀ attempt now, 1 ≤ attempt → attempt + fuel = maxAtt + 1 →
      (fuel : Rat) * maxB < deadline - now →
      getLoop retryable script (some (fun _ => 0)) deadline maxB mult maxAtt
          attempt fuel now (min maxB (b0 * mult ^ (attempt - 1))) =
        (.raised (errOf maxAtt), cfTrace errOf b0 maxB mult attempt fuel) := by
  intro fuel
  induction fuel with
  | zero => omega
  | succ n ih =>
    intro _ attempt now hatt hsum hrem
    have hbpos : 0 < min maxB (b0 * mult ^ (attempt - 1)) := by
      have : (0 : Rat) < b0 * mult ^ (attempt - 1) :=
        mul_pos hb0pos (pow_pos (by linarith) _)
      exact lt_min (by linarith) this
    have hble2 : min maxB (b0 * mult ^ (attempt - 1)) ≤ maxB := min_le_left _ _
    have hrem0 : 0 < deadline - now := by
      have h1 : (1 : Rat) ≤ ((n + 1 : Nat) : Rat) := by
        push_cast
        linarith [Nat.cast_nonneg (α := Rat) n]
      nlinarith
    rw [getLoop_step retryable script (some (fun _ => 0)) deadline maxB mult maxAtt
      attempt n now _ (errOf attempt) (hscript attempt) (hretry attempt) hrem0]
    cases n with
    | zero =>
      have hmax : maxAtt = attempt := by omega
      rw [afterFail_exhausted _ _ _ _ _ _ _ _ _ (by omega)]
      subst hmax
      rfl
    | succ m =>
      have hattlt : ¬ maxAtt ≤ attempt := by omega
      have hcast : ((m + 1 + 1 : Nat) : Rat) = (m : Rat) + 2 := by push_cast; ring
      have hmb : maxB ≤ ((m + 1 + 1 : Nat) : Rat) * maxB := by
        rw [hcast]
        nlinarith [Nat.cast_nonneg (α := Rat) m]
      rw [afterFail_continue deadline maxB mult maxAtt attempt now _ (errOf attempt)
        hattlt hrem0 (by linarith) hbpos]
      have hbnext : min maxB (min maxB (b0 * mult ^ (attempt - 1)) * mult) =
          min maxB (b0 * mult ^ ((attempt + 1) - 1)) := by
        rw [min_cap_mul hmult (by linarith)]
        congr 1
        rw [mul_assoc, ← pow_succ]
        congr 2
        omega
      rw [hbnext]
      have hrec := ih (by omega) (attempt + 1) (now + min maxB (b0 * mult ^ (attempt - 1)))
        (by omega) (by omega)
        (by
          have hc2 : ((m + 1 : Nat) : Rat) = (m : Rat) + 1 := by push_cast; ring
          rw [hc2]
          rw [hcast] at hrem
          linarith)
      dsimp only
      rw [hrec]
      simp [cfTrace]

end Retry

/-- C4 counterexample: with initial backoff 100 above the max backoff 60 and
every attempt failing, the backoff the hook receives before the first retry
is 100, not min(max_backoff, initial * multiplier ^ 0) = 60: the cap of
max_backoff is applied only when the backoff is updated after a sleep, never
to the initial value. -/
theorem c4_counterexample :
    (Retry.get ⟨1000, 2, 100, 60, 2⟩ (fun _ => true)
        (fun _ => (⟨0, Except.error (Retry.PyErr.otherErr "e")⟩ : Retry.AttemptSpec Unit))
        (some (fun _ => 0))).2.get? 1 =
      some (.hookCall 1 100 (Retry.PyErr.otherErr "e")) ∧
    (100 : Rat) ≠ min 60 (100 * 2 ^ 0) := by
  constructor
  · have hc : Retry.clampArgs ⟨1000, 2, 100, 60, 2⟩ = ⟨1000, 2, 100, 60, 2⟩ := by
      unfold Retry.clampArgs
      norm_num
    have hcont := Retry.afterFail_continue (α := Unit) 1000 60 2 2 1 0 100
      (Retry.PyErr.otherErr "e") (by omega) (by norm_num) (by norm_num) (by norm_num)
    have hex := Retry.afterFail_exhausted (α := Unit) (some (fun _ => 0)) 1000 60 2 2 2
      (0 + 100) (min 60 (100 * 2)) (Retry.PyErr.otherErr "e") (by omega)
    have hstep2 := Retry.getLoop_step (fun _ => true)
      (fun _ => (⟨0, Except.error (Retry.PyErr.otherErr "e")⟩ : Retry.AttemptSpec Unit))
      (some (fun _ => 0)) 1000 60 2 2 2 0 (0 + 100) (min 60 (100 * 2))
      (Retry.PyErr.otherErr "e") rfl rfl (by norm_num)
    have hstep1 := Retry.getLoop_step (fun _ => true)
      (fun _ => (⟨0, Except.error (Retry.PyErr.otherErr "e")⟩ : Retry.AttemptSpec Unit))
      (some (fun _ => 0)) 1000 60 2 2 1 1 0 100
      (Retry.PyErr.otherErr "e") rfl rfl (by norm_num)
    rw [hcont] at hstep1
    rw [hex] at hstep2
    dsimp only at hstep1 hstep2
    unfold Retry.get
    rw [hc]
    dsimp only
    show (Retry.getLoop (fun _ => true)
      (fun _ => (⟨0, Except.error (Retry.PyErr.otherErr "e")⟩ : Retry.AttemptSpec Unit))
      (some (fun _ => 0)) 1000 60 2 2 1 (1 + 1) 0 100).2.get? 1 = _
    rw [hstep1]
    show (Retry.REvent.attemptStart 1 ::
      ([Retry.REvent.hookCall 1 100 (Retry.PyErr.otherErr "e"), Retry.REvent.sleep 100] ++
        (Retry.getLoop (fun _ => true)
          (fun _ => (⟨0, Except.error (Retry.PyErr.otherErr "e")⟩ : Retry.AttemptSpec Unit))
          (some (fun _ => 0)) 1000 60 2 2 2 (0 + 1) (0 + 100) (min 60 (100 * 2))).2)).get? 1 = _
    rw [hstep2]
    rfl
  · norm_num

/-- C4 amended: in a run where every attempt fails with a retryable error and
the deadline never expires (the timeout exceeds max_attempts times the
max backoff, all durations zero), the executor raises the last error and its
event trace is exactly: for every non-final attempt a, the attempt, then the
hook call, then the sleep, where hook and sleep both carry the backoff
min(max_backoff, initial * multiplier ^ (a-1)) with the clamped parameters —
i.e. the claimed capped geometric progression, valid under the amendment that
the (clamped) initial backoff does not exceed the (clamped) max backoff
(otherwise the first backoff is the uncapped initial, see the
counterexample); the final attempt is followed by nothing. -/
theorem c4_amended {α : Type} (a : Retry.RetryArgs) (retryable : Retry.PyErr → Bool)
    (script : Nat → Retry.AttemptSpec α) (errOf : Nat → Retry.PyErr)
    (hscript : ∀ n, script n = ⟨0, Except.error (errOf n)⟩)
    (hretry : ∀ n, retryable (errOf n) = true)
    (hble : max (1/10 : Rat) a.initialBackoff ≤ max 1 a.maxBackoff)
    (htimeout : ((max 1 a.maxAttempts).toNat : Rat) * max 1 a.maxBackoff < a.timeout) :
    Retry.get a retryable script (some (fun _ => 0)) =
      (.raised (errOf (max 1 a.maxAttempts).toNat),
       Retry.cfTrace errOf (max (1/10 : Rat) a.initialBackoff) (max 1 a.maxBackoff)
         (max 1 a.multiplier) 1 (max 1 a.maxAttempts).toNat) := by
  unfold Retry.get
  dsimp only [Retry.clampArgs]
  have hN : 1 ≤ (max 1 a.maxAttempts).toNat := by
    have h : (1 : Int) ≤ max 1 a.maxAttempts := le_max_left _ _
    omega
  have hb0 : min (max 1 a.maxBackoff)
      (max (1/10 : Rat) a.initialBackoff * (max 1 a.multiplier) ^ (1 - 1)) =
      max (1/10 : Rat) a.initialBackoff := by
    norm_num [min_eq_right hble]
  conv_lhs => rw [← hb0]
  exact Retry.getLoop_allFail retryable script errOf a.timeout
    (max 1 a.maxBackoff) (max 1 a.multiplier) (max (1/10 : Rat) a.initialBackoff)
    (max 1 a.maxAttempts).toNat hscript hretry (le_max_left _ _) (le_max_left _ _)
    (lt_of_lt_of_le (by norm_num) (le_max_left _ _))
    (max 1 a.maxAttempts).toNat hN 1 0 le_rfl (by omega)
    (by rw [sub_zero]; exact htimeout)

/-- Witness for C4 amended at concrete parameters: timeout 200, three
attempts, initial backoff 1, max backoff 60, multiplier 2, every attempt
failing: the trace is attempt 1, hook 1, sleep 1, attempt 2, hook 2, sleep 2,
attempt 3, and the recorded error of attempt 3 is raised. -/
theorem c4_witness :
    Retry.get ⟨200, 3, 1, 60, 2⟩ (fun _ => true)
        (fun _ => (⟨0, Except.error (Retry.PyErr.otherErr "x")⟩ : Retry.AttemptSpec Unit))
        (some (fun _ => 0)) =
      (.raised (Retry.PyErr.otherErr "x"),
       Retry.cfTrace (fun _ => Retry.PyErr.otherErr "x") (max (1/10 : Rat) 1) (max 1 60)
         (max 1 2) 1 (max 1 (3 : Int)).toNat) :=
  c4_amended ⟨200, 3, 1, 60, 2⟩ (fun _ => true)
    (fun _ => (⟨0, Except.error (Retry.PyErr.otherErr "x")⟩ : Retry.AttemptSpec Unit))
    (fun _ => Retry.PyErr.otherErr "x") (fun _ => rfl) (fun _ => rfl)
    (by norm_num)
    (by
      have h3 : (max 1 (3 : Int)).toNat = 3 := rfl
      rw [h3]
      norm_num)

/-! ## C5 -/

namespace Paths

theorem lower_alpha {c : Char} (h : isLowerAZ c = true) : isAlphaAZ c = true := by
  simp only [isLowerAZ, Bool.and_eq_true, decide_eq_true_eq] at h
  simp [isAlphaAZ, h.1, h.2]

theorem lower_ne_slash {c : Char} (h : isLowerAZ c = true) : c ≠ '/' := by
  intro heq
  subst heq
  exact absurd h (by decide)

theorem alpha_ne_slash {c : Char} (h : isAlphaAZ c = true) : c ≠ '/' := by
  intro heq
  subst heq
  exact absurd h (by decide)

theorem alpha_ne_colon {c : Char} (h : isAlphaAZ c = true) : c ≠ ':' := by
  intro heq
  subst heq
  exact absurd h (by decide)

theorem alpha_ne_bslash {c : Char} (h : isAlphaAZ c = true) : c ≠ '\\' := by
  intro heq
  subst heq
  exact absurd h (by decide)

theorem alpha_not_ws {c : Char} (h : isAlphaAZ c = true) : c.isWhitespace = false := by
  have hn : 65 ≤ c.toNat ∧ c.toNat ≤ 122 := by
    simp only [isAlphaAZ, Bool.or_eq_true, Bool.and_eq_true, decide_eq_true_eq] at h
    rcases h with ⟨h1, h2⟩ | ⟨h1, h2⟩
    · have ha : (97 : Nat) ≤ c.toNat := h1
      have hb : c.toNat ≤ 122 := h2
      exact ⟨by omega, hb⟩
    · have ha : (65 : Nat) ≤ c.toNat := h1
      have hb : c.toNat ≤ 90 := h2
      exact ⟨ha, by omega⟩
  have h32 : c ≠ ' ' := fun he => absurd (he ▸ hn) (by decide)
  have h9 : c ≠ '\t' := fun he => absurd (he ▸ hn) (by decide)
  have h13 : c ≠ '\r' := fun he => absurd (he ▸ hn) (by decide)
  have h10 : c ≠ '\n' := fun he => absurd (he ▸ hn) (by decide)
  simp [Char.isWhitespace, h32, h9, h13, h10]

theorem ofNat_toNat_valid (n : Nat) (h : n.isValidChar) :
    (Char.ofNat n).toNat = n := by
  unfold Char.ofNat
  rw [dif_pos h]
  rfl

theorem lowerChar_id {c : Char} (h : isLowerAZ c = true) : lowerChar c = c := by
  simp only [isLowerAZ, Bool.and_eq_true, decide_eq_true_eq] at h
  unfold lowerChar
  rw [if_neg]
  rintro ⟨_, h2⟩
  have h97 : (97 : Nat) ≤ c.toNat := h.1
  have h90 : c.toNat ≤ 90 := h2
  omega

theorem lowerChar_lower {c : Char} (h : isAlphaAZ c = true) :
    isLowerAZ (lowerChar c) = true := by
  simp only [isAlphaAZ, Bool.or_eq_true, Bool.and_eq_true, decide_eq_true_eq] at h
  rcases h with ⟨h1, h2⟩ | ⟨h1, h2⟩
  · rw [lowerChar_id (by simp [isLowerAZ, h1, h2])]
    simp [isLowerAZ, h1, h2]
  · have h65 : (65 : Nat) ≤ c.toNat := h1
    have h90 : c.toNat ≤ 90 := h2
    unfold lowerChar
    rw [if_pos ⟨h1, h2⟩]
    have hv : (c.toNat + 32).isValidChar := Or.inl (by omega)
    have ht : (Char.ofNat (c.toNat + 32)).toNat = c.toNat + 32 := ofNat_toNat_valid _ hv
    simp only [isLowerAZ, Bool.and_eq_true, decide_eq_true_eq]
    constructor
    · show (97 : Nat) ≤ (Char.ofNat (c.toNat + 32)).toNat
      omega
    · show (Char.ofNat (c.toNat + 32)).toNat ≤ 122
      omega

theorem lowerRun_letters {d : List Char} (h : ∀ c ∈ d, isAlphaAZ c = true) :
    ∀ c ∈ lowerRun d, isLowerAZ c = true := by
  intro c hc
  obtain ⟨x, hx, rfl⟩ := List.mem_map.mp hc
  exact lowerChar_lower (h x hx)

theorem lowerRun_id {d : List Char} (h : ∀ c ∈ d, isLowerAZ c = true) :
    lowerRun d = d := by
  induction d with
  | nil => rfl
  | cons a rest ih =>
    have hrest := ih (fun c hc => h c (by simp [hc]))
    unfold lowerRun at hrest ⊢
    rw [List.map_cons, lowerChar_id (h a (by simp)), hrest]

theorem lowerRun_idem {d : List Char} (h : ∀ c ∈ d, isAlphaAZ c = true) :
    lowerRun (lowerRun d) = lowerRun d :=
  lowerRun_id (lowerRun_letters h)

theorem lowerRun_ne_nil {d : List Char} (h : d ≠ []) : lowerRun d ≠ [] := by
  cases d
  · exact absurd rfl h
  · simp [lowerRun]

theorem takeWhile_append_of_all {p : Char → Bool} {xs ys : List Char}
    (h : ∀ c ∈ xs, p c = true) :
    (xs ++ ys).takeWhile p = xs ++ ys.takeWhile p := by
  induction xs with
  | nil => simp
  | cons a rest ih =>
    rw [List.cons_append, List.takeWhile_cons, if_pos (h a (by simp)),
      ih (fun c hc => h c (by simp [hc]))]
    rfl

end Paths

namespace Paths

theorem head_slash_cons {s : List Char} (hs : s.head? = some '/') :
    s = '/' :: s.tail := by
  cases s with
  | nil => simp at hs
  | cons a t =>
    simp only [List.head?_cons, Option.some.injEq] at hs
    rw [hs]
    rfl

theorem takeWhile_head_neg {p : Char → Bool} {s : List Char} {c : Char}
    (hs : s.head? = some c) (hc : p c = false) : s.takeWhile p = [] := by
  cases s with
  | nil => rfl
  | cons a t =>
    simp only [List.head?_cons, Option.some.injEq] at hs
    subst hs
    rw [List.takeWhile_cons, if_neg (by simp [hc])]

theorem parse_wsl_canonical {d s : List Char}
    (hd : d ≠ []) (hdl : ∀ c ∈ d, isLowerAZ c = true) (hs : s.head? = some '/') :
    parse_from_wsl ("/mnt/".toList ++ d ++ s) = (some d, s) := by
  have htw : (d ++ s).takeWhile isLowerAZ = d := by
    rw [takeWhile_append_of_all hdl,
      takeWhile_head_neg hs (by decide), List.append_nil]
  have htk : ("/mnt/".toList ++ d ++ s).take 5 = "/mnt/".toList := by
    rw [List.append_assoc]
    exact List.take_left' rfl
  have hdr : ("/mnt/".toList ++ d ++ s).drop 5 = d ++ s := by
    rw [List.append_assoc]
    exact List.drop_left' rfl
  have hmatch : wslRegexMatch ("/mnt/".toList ++ d ++ s) = true := by
    unfold wslRegexMatch
    rw [htk, hdr]
    simp only [htw, List.drop_left, decide_eq_true_eq]
    simp [hd, hs]
  unfold parse_from_wsl
  rw [if_pos hmatch, hdr]
  simp only [htw, List.drop_left]

theorem parse_gb_canonical {d s : List Char}
    (hd : d ≠ []) (hdl : ∀ c ∈ d, isLowerAZ c = true) (hs : s.head? = some '/') :
    parse_from_windows_git_bash ('/' :: (d ++ s)) = (some d, s) := by
  have htw : (d ++ s).takeWhile isLowerAZ = d := by
    rw [takeWhile_append_of_all hdl,
      takeWhile_head_neg hs (by decide), List.append_nil]
  have hmatch : gitBashRegexMatch ('/' :: (d ++ s)) = true := by
    unfold gitBashRegexMatch
    simp only [List.take_cons, List.drop_succ_cons, List.drop_zero, List.take_zero]
    simp only [htw, List.drop_left, decide_eq_true_eq]
    simp [hd, hs]
  unfold parse_from_windows_git_bash
  rw [if_pos hmatch]
  simp only [List.drop_succ_cons, List.drop_zero, htw, List.drop_left]

theorem parse_windows_canonical {d s : List Char}
    (hd : d ≠ []) (hda : ∀ c ∈ d, isAlphaAZ c = true) (hs : s.head? = some '/') :
    parse_from_windows (d ++ ':' :: s) = (some d, s) := by
  have htw : (d ++ ':' :: s).takeWhile isAlphaAZ = d := by
    rw [takeWhile_append_of_all hda, List.takeWhile_cons, if_neg (by decide),
      List.append_nil]
  have hmatch : windowsRegexMatch (d ++ ':' :: s) = true := by
    unfold windowsRegexMatch
    simp only [htw, List.drop_left, decide_eq_true_eq]
    simp [hd]
  have hseg : (d ++ ':' :: s).takeWhile (fun c => c ≠ '/') = d ++ [':'] := by
    rw [takeWhile_append_of_all (fun c hc => by
      simp only [ne_eq, decide_eq_true_eq]
      exact alpha_ne_slash (hda c hc))]
    rw [List.takeWhile_cons, if_pos (by decide),
      takeWhile_head_neg hs (by decide)]
  unfold parse_from_windows
  rw [if_pos hmatch, hseg]
  dsimp only
  have hdl : (d ++ [':']).dropLast = d := List.dropLast_concat
  have hlen : (d ++ [':']).length = d.length + 1 := by simp
  have hdrop : (d ++ ':' :: s).drop (d ++ [':']).length = s := by
    rw [hlen]
    rw [show d ++ ':' :: s = (d ++ [':']) ++ s by simp]
    have : (d ++ [':']).length = d.length + 1 := hlen
    rw [← this]
    exact List.drop_left _ _
  rw [hdl, hdrop]
  have hsne : s ≠ [] := by
    intro h
    rw [h] at hs
    simp at hs
  rw [if_neg hsne]
  rw [Prod.mk.injEq]
  exact ⟨rfl, (head_slash_cons hs).symm⟩

end Paths

namespace Paths

theorem getLast?_mem_self {l : List Char} {c : Char} (h : l.getLast? = some c) :
    c ∈ l := by
  induction l with
  | nil => simp at h
  | cons a t ih =>
    cases t with
    | nil =>
      simp only [List.getLast?_singleton, Option.some.injEq] at h
      simp [h]
    | cons b t' =>
      rw [List.getLast?_cons_cons] at h
      simp [ih h]

theorem collapse_of_noDouble {p : List Char} (h : noDoubleSlash p) :
    collapseSlashes p = p := by
  induction p with
  | nil => rfl
  | cons a rest ih =>
    have hch := List.chain'_cons'.mp h
    rw [collapseSlashes]
    rw [ih hch.2, if_neg]
    rintro ⟨ha, hb⟩
    subst ha
    exact (hch.1 '/' hb) ⟨rfl, rfl⟩

theorem stripChars_id {p : List Char}
    (hh : ∀ c, p.head? = some c → c.isWhitespace = false)
    (hl : ∀ c, p.getLast? = some c → c.isWhitespace = false) :
    stripChars p = p := by
  unfold stripChars
  have h1 : p.dropWhile Char.isWhitespace = p := by
    cases p with
    | nil => rfl
    | cons a t => rw [List.dropWhile_cons, if_neg (by simp [hh a rfl])]
  rw [h1]
  have h2 : p.reverse.dropWhile Char.isWhitespace = p.reverse := by
    cases hr : p.reverse with
    | nil => rfl
    | cons a t =>
      have ha : p.getLast? = some a := by
        rw [← List.head?_reverse, hr]
        rfl
      rw [List.dropWhile_cons, if_neg (by simp [hl a ha])]
  rw [h2, List.reverse_reverse]

theorem slashify_id {p : List Char} (h : ∀ c ∈ p, c ≠ '\\') : slashify p = p := by
  induction p with
  | nil => rfl
  | cons a t ih =>
    unfold slashify at ih ⊢
    rw [List.map_cons, if_neg (h a (by simp)), ih (fun c hc => h c (by simp [hc]))]

theorem normalize_id {p : List Char} (hne : p ≠ [])
    (hh : ∀ c, p.head? = some c → c.isWhitespace = false)
    (hl : ∀ c, p.getLast? = some c → c.isWhitespace = false)
    (hnb : ∀ c ∈ p, c ≠ '\\')
    (hch : noDoubleSlash p) : normalize_path p = p := by
  unfold normalize_path
  rw [if_neg hne, stripChars_id hh hl, slashify_id hnb, collapse_of_noDouble hch]

theorem chain'_of_no_slash {d : List Char} (h : ∀ c ∈ d, c ≠ '/') :
    noDoubleSlash d := by
  induction d with
  | nil => exact List.chain'_nil
  | cons a t ih =>
    rw [noDoubleSlash, List.chain'_cons']
    refine ⟨fun y _ hc => absurd hc.1 (h a (by simp)), ih (fun c hc => h c (by simp [hc]))⟩

theorem canonicalTail_facts {s : List Char} (hs : canonicalTail s) :
    s ≠ [] ∧ s.head? = some '/' ∧ noDoubleSlash s ∧
      (∀ c ∈ s, c ≠ '\\') ∧ (∀ c ∈ s, c.isWhitespace = false) := by
  obtain ⟨h1, h2, h3⟩ := hs
  refine ⟨?_, h1, h3, fun c hc => (h2 c hc).1, fun c hc => (h2 c hc).2⟩
  intro h
  rw [h] at h1
  simp at h1

end Paths

namespace Paths

theorem chain'_append_no_slash {d s : List Char} (hd' : ∀ c ∈ d, c ≠ '/')
    (hs : noDoubleSlash s) : noDoubleSlash (d ++ s) := by
  rw [noDoubleSlash, List.chain'_append]
  refine ⟨chain'_of_no_slash hd', hs, ?_⟩
  intro x hx y _ hc
  exact (hd' x (getLast?_mem_self (Option.mem_def.mp hx))) hc.1

theorem head?_append_ne_nil {d s : List Char} (hd : d ≠ []) :
    (d ++ s).head? = d.head? := by
  cases d with
  | nil => exact absurd rfl hd
  | cons a t => rfl

theorem chain_mnt : noDoubleSlash "/mnt/".toList := by
  rw [show "/mnt/".toList = ['/', 'm', 'n', 't', '/'] from rfl, noDoubleSlash]
  refine List.chain'_cons.mpr ⟨by decide, ?_⟩
  refine List.chain'_cons.mpr ⟨by decide, ?_⟩
  refine List.chain'_cons.mpr ⟨by decide, ?_⟩
  refine List.chain'_cons.mpr ⟨by decide, ?_⟩
  exact List.chain'_singleton _

theorem wsl_canonical_normalize {d s : List Char} (hd : d ≠ [])
    (hdl : ∀ c ∈ d, isLowerAZ c = true) (hs : canonicalTail s) :
    normalize_path ("/mnt/".toList ++ d ++ s) = "/mnt/".toList ++ d ++ s := by
  obtain ⟨hsne, hsh, hsch, hsb, hsw⟩ := canonicalTail_facts hs
  have hd' : ∀ c ∈ d, c ≠ '/' := fun c hc => lower_ne_slash (hdl c hc)
  apply normalize_id
  · simp
  · intro c hc
    rw [show ("/mnt/".toList ++ d ++ s).head? = some '/' from rfl] at hc
    injection hc with h2
    subst h2
    decide
  · intro c hc
    rw [List.getLast?_append_of_ne_nil _ hsne] at hc
    exact hsw c (getLast?_mem_self hc)
  · intro c hc
    have hm : ∀ x ∈ "/mnt/".toList, x ≠ '\\' := by decide
    rcases List.mem_append.mp hc with h | h
    · rcases List.mem_append.mp h with h2 | h2
      · exact hm c h2
      · exact fun he => absurd (hdl c h2) (by subst he; decide)
    · exact hsb c h
  · rw [List.append_assoc, noDoubleSlash, List.chain'_append]
    refine ⟨chain_mnt, chain'_append_no_slash hd' hsch, ?_⟩
    intro x hx y hy hc
    rw [show ("/mnt/".toList).getLast? = some '/' from rfl, Option.mem_def,
      Option.some.injEq] at hx
    rw [Option.mem_def, head?_append_ne_nil hd] at hy
    have : y ∈ d := by
      cases d with
      | nil => exact absurd rfl hd
      | cons a t =>
        simp only [List.head?_cons, Option.some.injEq] at hy
        simp [hy]
    exact (hd' y this) hc.2

theorem gb_canonical_normalize {d s : List Char} (hd : d ≠ [])
    (hdl : ∀ c ∈ d, isLowerAZ c = true) (hs : canonicalTail s) :
    normalize_path ('/' :: (d ++ s)) = '/' :: (d ++ s) := by
  obtain ⟨hsne, hsh, hsch, hsb, hsw⟩ := canonicalTail_facts hs
  have hd' : ∀ c ∈ d, c ≠ '/' := fun c hc => lower_ne_slash (hdl c hc)
  apply normalize_id
  · simp
  · intro c hc
    simp only [List.head?_cons, Option.some.injEq] at hc
    subst hc
    decide
  · intro c hc
    rw [show ('/' :: (d ++ s)) = ('/' :: d) ++ s by simp,
      List.getLast?_append_of_ne_nil _ hsne] at hc
    exact hsw c (getLast?_mem_self hc)
  · intro c hc
    rcases List.mem_cons.mp hc with h | h
    · subst h
      decide
    · rcases List.mem_append.mp h with h2 | h2
      · exact fun he => absurd (hdl c h2) (by subst he; decide)
      · exact hsb c h2
  · rw [noDoubleSlash, List.chain'_cons']
    refine ⟨?_, chain'_append_no_slash hd' hsch⟩
    intro y hy hc
    rw [Option.mem_def, head?_append_ne_nil hd] at hy
    have : y ∈ d := by
      cases d with
      | nil => exact absurd rfl hd
      | cons a t =>
        simp only [List.head?_cons, Option.some.injEq] at hy
        simp [hy]
    exact (hd' y this) hc.2

theorem win_canonical_normalize {d s : List Char} (hd : d ≠ [])
    (hda : ∀ c ∈ d, isAlphaAZ c = true) (hs : canonicalTail s) :
    normalize_path (d ++ ':' :: s) = d ++ ':' :: s := by
  obtain ⟨hsne, hsh, hsch, hsb, hsw⟩ := canonicalTail_facts hs
  have hd' : ∀ c ∈ d, c ≠ '/' := fun c hc => alpha_ne_slash (hda c hc)
  apply normalize_id
  · cases d with
    | nil => exact absurd rfl hd
    | cons a t => simp
  · intro c hc
    rw [head?_append_ne_nil hd] at hc
    have : c ∈ d := by
      cases d with
      | nil => exact absurd rfl hd
      | cons a t =>
        simp only [List.head?_cons, Option.some.injEq] at hc
        simp [hc]
    exact alpha_not_ws (hda c this)
  · intro c hc
    rw [show d ++ ':' :: s = (d ++ [':']) ++ s by simp,
      List.getLast?_append_of_ne_nil _ hsne] at hc
    exact hsw c (getLast?_mem_self hc)
  · intro c hc
    rcases List.mem_append.mp hc with h | h
    · exact alpha_ne_bslash (hda c h)
    · rcases List.mem_cons.mp h with h2 | h2
      · subst h2
        decide
      · exact hsb c h2
  · apply chain'_append_no_slash hd'
    rw [noDoubleSlash, List.chain'_cons']
    exact ⟨fun y _ hc => absurd hc.1 (by decide), hsch⟩

end Paths

namespace Paths

theorem wslMatch_canonical {d s : List Char} (hd : d ≠ [])
    (hdl : ∀ c ∈ d, isLowerAZ c = true) (hsh : s.head? = some '/') :
    wslRegexMatch ("/mnt/".toList ++ d ++ s) = true := by
  have htw : (d ++ s).takeWhile isLowerAZ = d := by
    rw [takeWhile_append_of_all hdl, takeWhile_head_neg hsh (by decide),
      List.append_nil]
  have htk : ("/mnt/".toList ++ d ++ s).take 5 = "/mnt/".toList := by
    rw [List.append_assoc]
    exact List.take_left' rfl
  have hdr : ("/mnt/".toList ++ d ++ s).drop 5 = d ++ s := by
    rw [List.append_assoc]
    exact List.drop_left' rfl
  unfold wslRegexMatch
  rw [htk, hdr]
  simp only [htw, List.drop_left, decide_eq_true_eq]
  simp [hd, hsh]

theorem winMatch_canonical {d s : List Char} (hd : d ≠ [])
    (hda : ∀ c ∈ d, isAlphaAZ c = true) (_hsh : s.head? = some '/') :
    windowsRegexMatch (d ++ ':' :: s) = true := by
  have htw : (d ++ ':' :: s).takeWhile isAlphaAZ = d := by
    rw [takeWhile_append_of_all hda, List.takeWhile_cons, if_neg (by decide),
      List.append_nil]
  unfold windowsRegexMatch
  simp only [htw, List.drop_left, decide_eq_true_eq]
  simp [hd]

theorem wslMatch_win_false {d s : List Char} (hd : d ≠ [])
    (hda : ∀ c ∈ d, isAlphaAZ c = true) :
    wslRegexMatch (d ++ ':' :: s) = false := by
  cases d with
  | nil => exact absurd rfl hd
  | cons c1 t =>
    have hne : ((c1 :: t) ++ ':' :: s).take 5 ≠ "/mnt/".toList := by
      intro h
      have h0 := congrArg (fun l => l[0]?) h
      simp only [List.getElem?_take_of_lt (by norm_num : (0:Nat) < 5)] at h0
      simp only [List.cons_append, List.getElem?_cons_zero, Option.some.injEq] at h0
      have : c1 = '/' := by simpa using h0
      exact alpha_ne_slash (hda c1 (by simp)) this
    unfold wslRegexMatch
    rw [decide_eq_false hne]
    simp

theorem winMatch_gb_false (rest : List Char) :
    windowsRegexMatch ('/' :: rest) = false := by
  unfold windowsRegexMatch
  rw [List.takeWhile_cons, if_neg (by decide)]
  simp

theorem wslMatch_gb_false {d s : List Char} (hd : d ≠ [])
    (hdl : ∀ c ∈ d, isLowerAZ c = true) (hmnt : d ≠ "mnt".toList)
    (hsh : s.head? = some '/') : wslRegexMatch ('/' :: (d ++ s)) = false := by
  obtain ⟨s', rfl⟩ : ∃ s', s = '/' :: s' := ⟨s.tail, head_slash_cons hsh⟩
  have hne : ('/' :: (d ++ '/' :: s')).take 5 ≠ "/mnt/".toList := by
    intro h
    have hidx : ∀ i : Nat, i < 5 →
        ('/' :: (d ++ '/' :: s'))[i]? = ("/mnt/".toList)[i]? := by
      intro i hi
      have h2 := congrArg (fun l => l[i]?) h
      simp only [List.getElem?_take_of_lt hi] at h2
      exact h2
    rcases d with _ | ⟨c1, _ | ⟨c2, _ | ⟨c3, _ | ⟨c4, r⟩⟩⟩⟩
    · exact absurd rfl hd
    · have h2 := hidx 2 (by norm_num)
      simp at h2
    · have h3 := hidx 3 (by norm_num)
      simp at h3
    · have h1 := hidx 1 (by norm_num)
      have h2 := hidx 2 (by norm_num)
      have h3 := hidx 3 (by norm_num)
      simp at h1 h2 h3
      exact hmnt (by rw [show "mnt".toList = ['m', 'n', 't'] from rfl, h1, h2, h3])
    · have h4 := hidx 4 (by norm_num)
      simp at h4
      exact lower_ne_slash (hdl c4 (by simp)) h4
  unfold wslRegexMatch
  rw [decide_eq_false hne]
  simp

theorem detect_canonical_wsl {d s : List Char} (hd : d ≠ [])
    (hdl : ∀ c ∈ d, isLowerAZ c = true) (hs : canonicalTail s) :
    detect_path_type ("/mnt/".toList ++ d ++ s) = some "wsl" := by
  obtain ⟨hsne, hsh, _, _, _⟩ := canonicalTail_facts hs
  unfold detect_path_type
  rw [wsl_canonical_normalize hd hdl hs]
  dsimp only
  rw [if_neg (by simp), if_pos (wslMatch_canonical hd hdl hsh)]

theorem detect_canonical_win {d s : List Char} (hd : d ≠ [])
    (hda : ∀ c ∈ d, isAlphaAZ c = true) (hs : canonicalTail s) :
    detect_path_type (d ++ ':' :: s) = some "windows" := by
  obtain ⟨hsne, hsh, _, _, _⟩ := canonicalTail_facts hs
  unfold detect_path_type
  rw [win_canonical_normalize hd hda hs]
  dsimp only
  rw [if_neg (by cases d with
      | nil => exact absurd rfl hd
      | cons a t => simp),
    wslMatch_win_false hd hda]
  rw [if_neg (by simp), if_pos (winMatch_canonical hd hda hsh)]

theorem detect_canonical_gb {d s : List Char} (hd : d ≠ [])
    (hdl : ∀ c ∈ d, isLowerAZ c = true) (hmnt : d ≠ "mnt".toList)
    (hs : canonicalTail s) :
    detect_path_type ('/' :: (d ++ s)) = none := by
  obtain ⟨hsne, hsh, _, _, _⟩ := canonicalTail_facts hs
  unfold detect_path_type
  rw [gb_canonical_normalize hd hdl hs]
  dsimp only
  rw [if_neg (by simp), wslMatch_gb_false hd hdl hmnt hsh]
  rw [if_neg (by simp), winMatch_gb_false]
  simp

end Paths

namespace Paths

theorem driveTruthy_some {d : List Char} (hd : d ≠ []) :
    driveTruthy (some d) = true := by
  cases d with
  | nil => exact absurd rfl hd
  | cons a t => rfl

theorem canonPath_wsl (d s : List Char) (hd : d ≠ []) :
    canonPath "wsl" d s = "/mnt/".toList ++ lowerRun d ++ s := by
  unfold canonPath build_converted_path
  rw [if_pos rfl, if_pos (driveTruthy_some hd)]
  rfl

theorem canonPath_gb (d s : List Char) (hd : d ≠ []) :
    canonPath "windows_git_bash" d s = '/' :: (lowerRun d ++ s) := by
  unfold canonPath build_converted_path
  rw [if_neg (by decide), if_pos rfl, if_pos (driveTruthy_some hd)]
  rfl

theorem canonPath_win (d s : List Char) (hd : d ≠ []) :
    canonPath "windows" d s = d ++ ':' :: s := by
  unfold canonPath build_converted_path
  rw [if_neg (by decide), if_neg (by decide), if_pos rfl,
    if_pos (driveTruthy_some hd)]
  rfl

theorem build_drive_orig_irrel {t : String} {d s orig : List Char}
    (ht : t ∈ knownTypes) (hd : d ≠ []) :
    build_converted_path (some d) s t orig = canonPath t d s := by
  have ht' : t = "wsl" ∨ t = "windows_git_bash" ∨ t = "windows" := by
    simpa [knownTypes] using ht
  rcases ht' with h | h | h
  · subst h
    rw [canonPath_wsl d s hd]
    unfold build_converted_path
    rw [if_pos rfl, if_pos (driveTruthy_some hd)]
    rfl
  · subst h
    rw [canonPath_gb d s hd]
    unfold build_converted_path
    rw [if_neg (by decide), if_pos rfl, if_pos (driveTruthy_some hd)]
    rfl
  · subst h
    rw [canonPath_win d s hd]
    unfold build_converted_path
    rw [if_neg (by decide), if_neg (by decide), if_pos rfl,
      if_pos (driveTruthy_some hd)]
    rfl

theorem convertCore_wsl_canonical {t : String} {d s : List Char} (hd : d ≠ [])
    (hdl : ∀ c ∈ d, isLowerAZ c = true) (hs : canonicalTail s)
    (ht : t ∈ knownTypes) :
    convertCore ("/mnt/".toList ++ d ++ s) "wsl" t = canonPath t d s := by
  obtain ⟨hsne, hsh, _, _, _⟩ := canonicalTail_facts hs
  unfold convertCore
  rw [if_neg (by simp [knownTypes])]
  dsimp only
  rw [wsl_canonical_normalize hd hdl hs]
  rw [show detect_drive_and_path ("/mnt/".toList ++ d ++ s) "wsl" =
      parse_from_wsl ("/mnt/".toList ++ d ++ s) from by
    unfold detect_drive_and_path
    rw [if_pos rfl]]
  rw [parse_wsl_canonical hd hdl hsh]
  exact build_drive_orig_irrel ht hd

theorem convertCore_gb_canonical {t : String} {d s : List Char} (hd : d ≠ [])
    (hdl : ∀ c ∈ d, isLowerAZ c = true) (hs : canonicalTail s)
    (ht : t ∈ knownTypes) :
    convertCore ('/' :: (d ++ s)) "windows_git_bash" t = canonPath t d s := by
  obtain ⟨hsne, hsh, _, _, _⟩ := canonicalTail_facts hs
  unfold convertCore
  rw [if_neg (by simp [knownTypes])]
  dsimp only
  rw [gb_canonical_normalize hd hdl hs]
  rw [show detect_drive_and_path ('/' :: (d ++ s)) "windows_git_bash" =
      parse_from_windows_git_bash ('/' :: (d ++ s)) from by
    unfold detect_drive_and_path
    rw [if_neg (by decide), if_pos rfl]]
  rw [parse_gb_canonical hd hdl hsh]
  exact build_drive_orig_irrel ht hd

theorem convertCore_win_canonical {t : String} {d s : List Char} (hd : d ≠ [])
    (hda : ∀ c ∈ d, isAlphaAZ c = true) (hs : canonicalTail s)
    (ht : t ∈ knownTypes) :
    convertCore (d ++ ':' :: s) "windows" t = canonPath t d s := by
  obtain ⟨hsne, hsh, _, _, _⟩ := canonicalTail_facts hs
  unfold convertCore
  rw [if_neg (by simp [knownTypes])]
  dsimp only
  rw [win_canonical_normalize hd hda hs]
  rw [show detect_drive_and_path (d ++ ':' :: s) "windows" =
      parse_from_windows (d ++ ':' :: s) from by
    unfold detect_drive_and_path
    rw [if_neg (by decide), if_neg (by decide), if_pos rfl]]
  rw [parse_windows_canonical hd hda hsh]
  exact build_drive_orig_irrel ht hd

theorem convert_canonical_hop {f t : String} {d s : List Char}
    (hf : f ∈ knownTypes) (ht : t ∈ knownTypes) (hft : f ≠ t)
    (hd : d ≠ []) (hda : ∀ c ∈ d, isAlphaAZ c = true)
    (hlow : f ≠ "windows" → ∀ c ∈ d, isLowerAZ c = true)
    (hmnt : lowerRun d ≠ "mnt".toList)
    (hs : canonicalTail s) :
    convert_path (canonPath f d s) f t =
      canonPath t (if f = "windows" then d else lowerRun d) s := by
  have hf' : f = "wsl" ∨ f = "windows_git_bash" ∨ f = "windows" := by
    simpa [knownTypes] using hf
  rcases hf' with hfw | hfg | hfw2
  · -- f is the wsl style
    subst hfw
    have hdl : ∀ c ∈ d, isLowerAZ c = true := hlow (by decide)
    have hlr : lowerRun d = d := lowerRun_id hdl
    rw [if_neg (by decide), hlr, canonPath_wsl d s hd, hlr]
    rw [convert_path_detected _ "wsl" t "wsl" (by simp) hft ht
      (detect_canonical_wsl hd hdl hs)]
    rw [if_neg hft, if_neg (by simp)]
    exact convertCore_wsl_canonical hd hdl hs ht
  · -- f is the git-bash style
    subst hfg
    have hdl : ∀ c ∈ d, isLowerAZ c = true := hlow (by decide)
    have hlr : lowerRun d = d := lowerRun_id hdl
    rw [hlr] at hmnt
    rw [if_neg (by decide), hlr, canonPath_gb d s hd, hlr]
    rw [convert_path_undetected _ "windows_git_bash" t (by simp) hft ht
      (detect_canonical_gb hd hdl hmnt hs)]
    exact convertCore_gb_canonical hd hdl hs ht
  · -- f is the windows style
    subst hfw2
    have hp : d ++ ':' :: s ≠ [] := by
      cases d with
      | nil => exact absurd rfl hd
      | cons a r => simp
    rw [if_pos rfl, canonPath_win d s hd]
    rw [convert_path_detected _ "windows" t "windows" hp hft ht
      (detect_canonical_win hd hda hs)]
    rw [if_neg hft, if_neg (by simp)]
    exact convertCore_win_canonical hd hda hs ht

end Paths

namespace Paths

theorem canonPath_lower_eq {t : String} {d s : List Char} (hd : d ≠ [])
    (hda : ∀ c ∈ d, isAlphaAZ c = true) (htw : t ≠ "windows")
    (ht : t ∈ knownTypes) :
    canonPath t d s = canonPath t (lowerRun d) s := by
  have ht' : t = "wsl" ∨ t = "windows_git_bash" := by
    have h := ht
    simp only [knownTypes, List.mem_cons, List.mem_singleton] at h
    rcases h with h | h | h
    · exact Or.inl h
    · exact Or.inr h
    · simp at h
      exact absurd h htw
  have hidem := lowerRun_idem hda
  rcases ht' with h | h <;> subst h
  · rw [canonPath_wsl _ _ hd, canonPath_wsl _ _ (lowerRun_ne_nil hd), hidem]
  · rw [canonPath_gb _ _ hd, canonPath_gb _ _ (lowerRun_ne_nil hd), hidem]

end Paths

/-- C5 counterexample: the claim fails for the drive letter run mnt with
the Git-Bash source style.  The canonical Git-Bash drive path built from
drive mnt and suffix /e/Stuff is /mnt/e/Stuff; converting it to windows is
hijacked by detection (the path is detected as wsl with drive e), giving
e:/Stuff, and converting that back to Git-Bash yields /e/Stuff, which is not
the original path up to drive lowercasing and slash normalization (the
original is already lowercase and normalized, and the mnt segment is lost). -/
theorem c5_counterexample :
    Paths.canonPath "windows_git_bash" "mnt".toList "/e/Stuff".toList =
      "/mnt/e/Stuff".toList ∧
    Paths.convert_path "/mnt/e/Stuff".toList "windows_git_bash" "windows" =
      "e:/Stuff".toList ∧
    Paths.convert_path "e:/Stuff".toList "windows" "windows_git_bash" =
      "/e/Stuff".toList ∧
    "/e/Stuff".toList ≠ "/mnt/e/Stuff".toList := by
  refine ⟨rfl, rfl, rfl, by decide⟩

/-- C5 amended: the drive-path round trip holds for every pair of distinct
known styles and every non-empty ASCII-letter drive run d whose lowercase
form is not mnt (the counterexample shows the mnt drive is hijacked by the
wsl detection when the Git-Bash style is involved), with the suffix taken in
normalized form (leading slash, no backslashes, no whitespace, no doubled
slashes; every suffix normalizes to such a form): converting the canonical
drive path of the source style to the target style and back yields exactly
the canonical source path with the drive lowercased. -/
theorem c5_amended (f t : String) (hf : f ∈ Paths.knownTypes)
    (ht : t ∈ Paths.knownTypes) (hft : f ≠ t) (d s : List Char) (hd : d ≠ [])
    (hda : ∀ c ∈ d, Paths.isAlphaAZ c = true)
    (hmnt : Paths.lowerRun d ≠ "mnt".toList) (hs : Paths.canonicalTail s) :
    Paths.convert_path (Paths.convert_path (Paths.canonPath f d s) f t) t f =
      Paths.canonPath f (Paths.lowerRun d) s := by
  have hd1ne : Paths.lowerRun d ≠ [] := Paths.lowerRun_ne_nil hd
  have hd1l : ∀ c ∈ Paths.lowerRun d, Paths.isLowerAZ c = true :=
    Paths.lowerRun_letters hda
  have hd1a : ∀ c ∈ Paths.lowerRun d, Paths.isAlphaAZ c = true :=
    fun c hc => Paths.lower_alpha (hd1l c hc)
  have hd1lr : Paths.lowerRun (Paths.lowerRun d) = Paths.lowerRun d :=
    Paths.lowerRun_idem hda
  have hmnt1 : Paths.lowerRun (Paths.lowerRun d) ≠ "mnt".toList := by
    rw [hd1lr]
    exact hmnt
  by_cases hfw : f = "windows"
  · subst hfw
    have htw : t ≠ "windows" := fun h => hft h.symm
    have hop1 := Paths.convert_canonical_hop hf ht hft hd hda
      (fun hne => absurd rfl hne) hmnt hs
    rw [if_pos rfl] at hop1
    have hteq : Paths.canonPath t d s = Paths.canonPath t (Paths.lowerRun d) s :=
      Paths.canonPath_lower_eq hd hda htw ht
    have hop2 := Paths.convert_canonical_hop ht hf (Ne.symm hft) hd1ne hd1a
      (fun _ => hd1l) hmnt1 hs
    rw [if_neg htw, hd1lr] at hop2
    rw [hop1, hteq, hop2]
  · have hop1 := Paths.convert_canonical_hop hf ht hft hd1ne hd1a
      (fun _ => hd1l) hmnt1 hs
    have hif1 : (if f = "windows" then Paths.lowerRun d
        else Paths.lowerRun (Paths.lowerRun d)) = Paths.lowerRun d := by
      rw [if_neg hfw, hd1lr]
    rw [hif1] at hop1
    have hop2 := Paths.convert_canonical_hop ht hf (Ne.symm hft) hd1ne hd1a
      (fun _ => hd1l) hmnt1 hs
    have hif2 : (if t = "windows" then Paths.lowerRun d
        else Paths.lowerRun (Paths.lowerRun d)) = Paths.lowerRun d := by
      split_ifs
      · rfl
      · exact hd1lr
    rw [hif2] at hop2
    rw [Paths.canonPath_lower_eq hd hda hfw hf, hop1, hop2]

/-- Witness for C5 amended: the wsl drive path built from drive c and suffix
slash-x converts to windows and back to the original. -/
theorem c5_witness :
    Paths.convert_path (Paths.convert_path
        (Paths.canonPath "wsl" "c".toList "/x".toList) "wsl" "windows")
      "windows" "wsl" =
      Paths.canonPath "wsl" (Paths.lowerRun "c".toList) "/x".toList :=
  c5_amended "wsl" "windows" (by simp [Paths.knownTypes]) (by simp [Paths.knownTypes])
    (by decide) "c".toList "/x".toList (by decide) (by decide) (by decide)
    ⟨rfl, by decide,
     by
       rw [Paths.noDoubleSlash, show "/x".toList = ['/', 'x'] from rfl]
       exact List.chain'_cons.mpr ⟨by decide, List.chain'_singleton _⟩⟩
